import Mathlib

/-!
Verification development for the automerge-py frontend.

The definitions below are a shallow embedding of the Python sources:

* `src/automerge/apply_patch.py` — op-id parsing, Lamport comparison, and the
  patch applier (`get_value`, `apply_properties`, `update_list_obj`,
  `apply_patch`);
* `src/automerge/context.py` — the edit context (`add_op`, `set_value`,
  `get_value_description`, `get_values_descriptions`, `get_subpatch`,
  `apply_at_path`);
* `src/automerge/proxies.py` — `MapProxy.__setitem__` and `ListProxy.insert`;
* `src/automerge/datatypes.py` — the `Map`/`List` containers and `get_pred`;
* `src/automerge/doc.py` — the transaction lifecycle
  (`__start_change_block`, `__finish_change_block`, `__make_change`,
  `__exit__`);
* `src/src/automerge/repo.py` — `FileSystemStorage._key_to_path` and
  `_path_to_key`.

Modelling conventions:

* Python `None` is `AMVal.vnone`; a raised exception is an `Except.error`
  carrying an `Err` that names the Python exception class.  Exceptions are
  modelled as aborting the whole computation (the partially mutated state that
  a raising Python call may leave behind is not observable in the pure model).
* Python dicts are association lists that preserve insertion order; updating
  an existing key keeps its position, a new key is appended, exactly as a
  Python dict behaves.
* Python strings are compared code point by code point, which agrees with
  `String` comparison on `Char` here.
* The stable ascending `list.sort` of Python is modelled with
  `List.insertionSort`, which is also stable; the two agree observably on
  every list the sources sort.
* The `Context` structure and the functions on it embed `context.py` on its
  own terms (its `updated` list models the updated-object map its JS original
  maintains and `doc.py` expects; only proxy-level claims observe it).  The
  `doc.py` transaction lifecycle is embedded literally and separately: its
  `Context(self.actor_id, 0, self.cache)` call transposes the declared
  `Context(max_op, actor_id, root_obj)` parameters, so the doc-level context
  (`DocContext`) is typed by the values that call site actually passes (the
  actor id lands in `max_op`, the integer `0` in `actor_id`, the cache dict in
  `root_obj`); the root proxy binds the *string* `"_root"` as `assoc_obj`, and
  its context attribute is named `ctx` while `__finish_change_block` reads
  `.context`.  The resulting attribute and type errors are embedded as the
  `Except.error`s the literal source raises, at the program point where it
  raises them; code below such a raise is unreachable and not modelled.
-/

namespace AMPy

/-- Python exception classes raised by the embedded code. -/
inductive Err where
  | keyError
  | indexError
  | typeError
  | attributeError
  | valueError (msg : String)
  | exception (msg : String)
deriving DecidableEq

/-- Python dictionary key as used by the frontend: a `str` or an `int`
(list indices flow through the same code paths as map keys). -/
inductive PyKey where
  | s (v : String)
  | i (v : Nat)
deriving DecidableEq

/-- Materialised document value: Python `None`, primitives, `Counter`
(`datatypes.py`), and the `Map`/`List` containers of `datatypes.py`.
A `Map` carries its dict entries and `recent_ops` (key → (op-id → value));
a `List` carries its elements, `elem_ids` and `recent_ops`, where the latter
is a Python list whose entries may be `None` placeholders. -/
inductive AMVal where
  | vnone
  | vint (n : Int)
  | vbool (b : Bool)
  | vstr (s : String)
  | vcounter (n : Int)
  | vmap (objectId : String) (entries : List (PyKey × AMVal))
      (recentOps : List (PyKey × List (String × AMVal)))
  | vlist (objectId : String) (elems : List AMVal) (elemIds : List String)
      (recentOps : List (Option (List (String × AMVal))))

/-- List edit of a patch (`apply_patch.py`, `update_list_obj`). -/
inductive Edit where
  | insert (index : Nat) (elemId : String)
  | remove (index : Nat)
deriving DecidableEq

/-- Patch node.  A patch dict either carries a `value` (with an optional
`datatype`), or an `objectId` with a `type` and optional `props`/`edits`. -/
inductive Patch where
  | prim (v : AMVal)
  | primDT (v : AMVal) (dt : String)
  | node (objectId : String) (ty : String)
      (props : Option (List (PyKey × List (String × Patch))))
      (edits : Option (List Edit))

/-- Python truthiness of a materialised value (`if conflict:` in
`get_value`); empty containers and zero numbers are falsy. -/
def truthy : AMVal → Bool
  | .vnone => false
  | .vint n => n != 0
  | .vbool b => b
  | .vstr s => s != ""
  | .vcounter n => n != 0
  | .vmap _ es _ => !es.isEmpty
  | .vlist _ es _ _ => !es.isEmpty

/-- Python `is None` test. -/
def isNone : AMVal → Bool
  | .vnone => true
  | _ => false

/-- Value is a `Map` or `List` container (has a `recent_ops` attribute). -/
def isComposite : AMVal → Bool
  | .vmap _ _ _ => true
  | .vlist _ _ _ _ => true
  | _ => false

/-- Lookup in an insertion-ordered dict (first matching key wins; keys of a
Python dict are unique). -/
def dget {κ β : Type} [DecidableEq κ] : List (κ × β) → κ → Option β
  | [], _ => none
  | (k, v) :: rest, k' => if k' = k then some v else dget rest k'

/-- Membership test (`key in d`) for an insertion-ordered dict. -/
def dhas {κ β : Type} [DecidableEq κ] (d : List (κ × β)) (k : κ) : Bool :=
  (dget d k).isSome

/-- Assignment `d[k] = v` on an insertion-ordered dict: an existing key keeps
its position, a new key is appended. -/
def dset {κ β : Type} [DecidableEq κ] : List (κ × β) → κ → β → List (κ × β)
  | [], k, v => [(k, v)]
  | (k0, v0) :: rest, k, v =>
      if k = k0 then (k0, v) :: rest else (k0, v0) :: dset rest k v

/-- Deletion `del d[k]` on an insertion-ordered dict (caller checks
presence). -/
def ddel {κ β : Type} [DecidableEq κ] : List (κ × β) → κ → List (κ × β)
  | [], _ => []
  | (k0, v0) :: rest, k => if k = k0 then rest else (k0, v0) :: ddel rest k

/-- Python `list.insert`, which clamps the index into `[0, len]`. -/
def pyInsert {α : Type} (l : List α) (i : Nat) (a : α) : List α :=
  l.insertIdx (min i l.length) a

/-- Op id `(counter, actorId)` from `apply_patch.py`. -/
structure OpId where
  counter : Nat
  actorId : String
deriving DecidableEq

/-- Decimal digits to a natural number (`int()` on a digit string). -/
def digitsToNat (ds : List Char) : Nat :=
  ds.foldl (fun n c => 10 * n + (c.toNat - 48)) 0

/-- Embeds `parse_op_id` of `apply_patch.py`: the regex `^(\d+)@(.*)$`
accepts one or more digits, an `@`, and an arbitrary actor id. -/
def parse_op_id (s : String) : Option OpId :=
  let ds := s.data.takeWhile Char.isDigit
  if ds.isEmpty then none
  else
    match s.data.drop ds.length with
    | '@' :: rest => some ⟨digitsToNat ds, String.mk rest⟩
    | _ => none

/-- Three-way comparison on parsed op ids: counter first, then the actor id
lexicographically, as in `lamport_compare`. -/
def opIdCompare (t1 t2 : OpId) : Int :=
  if t1.counter ≠ t2.counter then (t1.counter : Int) - (t2.counter : Int)
  else if t1.actorId ≠ t2.actorId then (if t2.actorId < t1.actorId then 1 else -1)
  else 0

/-- Embeds `lamport_compare` of `apply_patch.py`, which raises on an op id
the regex rejects. -/
def lamport_compare (ts1 ts2 : String) : Except Err Int :=
  match parse_op_id ts1, parse_op_id ts2 with
  | some t1, some t2 => pure (opIdCompare t1 t2)
  | _, _ => throw (.exception "Not a valid op_id")

/-- Total comparison key: a parse failure falls back to a junk key that never
collides with another string, so the relation below is a total preorder.  On
op ids the regex accepts it agrees with `lamport_compare`. -/
def lamKey (s : String) : OpId :=
  (parse_op_id s).getD ⟨0, s⟩

/-- Total ordering relation used to model Python's
`sort(key=cmp_to_key(lamport_compare))`. -/
def lamLe (a b : String) : Prop :=
  opIdCompare (lamKey a) (lamKey b) ≤ 0

instance : DecidableRel lamLe :=
  fun a b => inferInstanceAs (Decidable (opIdCompare (lamKey a) (lamKey b) ≤ 0))

/-- Python raises inside the sort comparator as soon as an op id fails to
parse; with fewer than two keys the comparator is never invoked. -/
def checkOpIdsParse (ids : List String) : Except Err Unit :=
  if ids.length ≤ 1 then pure ()
  else
    match ids.find? (fun i => (parse_op_id i).isNone) with
    | some _ => throw (.exception "Not a valid op_id")
    | none => pure ()

/-- Descending op-id order produced by `patch_op_ids.sort(...)` followed by
`patch_op_ids.reverse()`. -/
def pySortDesc (ids : List String) : List String :=
  (List.insertionSort lamLe ids).reverse

/-- Embeds `update_list_obj`'s edit loop: an insert clamps like Python
`list.insert`, a remove `del`s from `elem_ids`, the list and `recent_ops`
in that order, raising `IndexError` when out of range. -/
def apply_edits : AMVal → List Edit → Except Err AMVal
  | v, [] => pure v
  | .vlist oid elems elemIds recentOps, (.insert idx elemId) :: rest =>
      apply_edits
        (.vlist oid (pyInsert elems idx .vnone) (pyInsert elemIds idx elemId)
          (pyInsert recentOps idx none)) rest
  | .vlist oid elems elemIds recentOps, (.remove idx) :: rest =>
      if idx < elemIds.length then
        if idx < elems.length then
          if idx < recentOps.length then
            apply_edits
              (.vlist oid (elems.eraseIdx idx) (elemIds.eraseIdx idx)
                (recentOps.eraseIdx idx)) rest
          else throw .indexError
        else throw .indexError
      else throw .indexError
  | _, _ :: _ => throw .attributeError

/-- The conflict lookup `our_recent_ops[key][patch_op_id]` guarded by
`key in our_recent_ops and patch_op_id in our_recent_ops[key]`: for a `List`
object the Python membership test `key in our_recent_ops` scans the list's
*elements*, never its indices, so the lookup never succeeds there. -/
def compute_conflict (obj : AMVal) (key : PyKey) (opId : String) : Option AMVal :=
  match obj with
  | .vmap _ _ recentOps =>
      match dget recentOps key with
      | some cs => dget cs opId
      | none => none
  | _ => none

mutual

/-- Embeds `get_value` of `apply_patch.py` (lines 32–43).  For a composite
patch, a truthy existing `conflict` whose `object_id` differs from the
patch's is replaced with `Map([], patch["objectId"])` — always a `Map`,
whatever the patch's declared type — before `apply_patch` is applied; a
truthy non-composite raises `AttributeError` on `.object_id`. -/
def get_value (conflict : AMVal) (patch : Patch) : Except Err AMVal :=
  match patch with
  | .prim v => pure v
  | .primDT _ _ => pure .vnone
  | .node oid ty props edits =>
      if truthy conflict then
        match conflict with
        | .vmap oid' e r =>
            apply_patch (if oid' ≠ oid then .vmap oid [] [] else .vmap oid' e r)
              (.node oid ty props edits)
        | .vlist oid' e ei r =>
            apply_patch (if oid' ≠ oid then .vmap oid [] [] else .vlist oid' e ei r)
              (.node oid ty props edits)
        | _ => throw .attributeError
      else apply_patch conflict (.node oid ty props edits)
termination_by 2 * sizeOf patch + 1

/-- Embeds `apply_patch` of `apply_patch.py` (lines 96–108). -/
def apply_patch (obj : AMVal) (patch : Patch) : Except Err AMVal :=
  match patch with
  | .prim _ => if !(isNone obj) then pure obj else throw .keyError
  | .primDT _ _ => if !(isNone obj) then pure obj else throw .keyError
  | .node _ ty props edits =>
      if !(isNone obj) && props.isNone && edits.isNone then pure obj
      else if ty = "map" then apply_patch_map obj props
      else if ty = "list" then apply_patch_list obj props edits
      else throw (.exception "Unknown object type in patch")
termination_by 2 * sizeOf patch

/-- The `apply_properties(obj, patch["props"])` call of `apply_patch`; a
missing `props` entry raises `KeyError`. -/
def apply_patch_map (obj : AMVal)
    (props : Option (List (PyKey × List (String × Patch)))) : Except Err AMVal :=
  match props with
  | some ps => apply_properties obj ps
  | none => throw .keyError
termination_by 2 * sizeOf props

/-- The `update_list_obj(obj, patch["props"], patch["edits"])` call of
`apply_patch`; a missing entry raises `KeyError`. -/
def apply_patch_list (obj : AMVal)
    (props : Option (List (PyKey × List (String × Patch))))
    (edits : Option (List Edit)) : Except Err AMVal :=
  match props, edits with
  | some ps, some es => update_list_obj obj ps es
  | _, _ => throw .keyError
termination_by 2 * (sizeOf props + sizeOf edits)

/-- Embeds `update_list_obj` of `apply_patch.py` (lines 81–93): the edits are
applied first, then `apply_properties`; a `Map` (no `elem_ids`) or primitive
target raises `AttributeError`. -/
def update_list_obj (obj : AMVal) (props : List (PyKey × List (String × Patch)))
    (edits : List Edit) : Except Err AMVal :=
  match obj with
  | .vlist oid elems elemIds recentOps => do
      let obj' ← apply_edits (.vlist oid elems elemIds recentOps) edits
      apply_properties obj' props
  | _ => throw .attributeError
termination_by 2 * sizeOf props + 2

/-- Embeds `apply_properties` of `apply_patch.py` (lines 46–78); the initial
`obj.recent_ops` read raises `AttributeError` on a non-container. -/
def apply_properties (obj : AMVal) (props : List (PyKey × List (String × Patch))) :
    Except Err AMVal :=
  if isComposite obj then apply_properties_loop obj props
  else throw .attributeError
termination_by 2 * sizeOf props + 1

/-- The `for key, patch_recent_ops in props.items()` loop of
`apply_properties`. -/
def apply_properties_loop (obj : AMVal)
    (props : List (PyKey × List (String × Patch))) : Except Err AMVal :=
  match props with
  | [] => pure obj
  | (key, patchRecentOps) :: rest => do
      let obj' ← apply_property obj key patchRecentOps
      apply_properties_loop obj' rest
termination_by 2 * sizeOf props

/-- One key of the `apply_properties` loop: sort the patch's op ids
descending by Lamport, compute each op id's value, then either delete the
slot (empty subpatch) or assign the winner — the first id of the descending
order — and store the full map of values as the slot's new `recent_ops`. -/
def apply_property (obj : AMVal) (key : PyKey)
    (patchRecentOps : List (String × Patch)) : Except Err AMVal := do
  let ids := patchRecentOps.map Prod.fst
  let _ ← checkOpIdsParse ids
  let idsDesc := pySortDesc ids
  let vals ← compute_values obj key patchRecentOps
  match idsDesc with
  | [] =>
      match obj with
      | .vmap oid entries recentOps =>
          if !(dhas entries key) then throw .keyError
          else if !(dhas recentOps key) then throw .keyError
          else pure (.vmap oid (ddel entries key) (ddel recentOps key))
      | .vlist oid elems elemIds recentOps =>
          match key with
          | .i idx =>
              if idx < elems.length then
                if idx < recentOps.length then
                  pure (.vlist oid (elems.eraseIdx idx) elemIds (recentOps.eraseIdx idx))
                else throw .indexError
              else throw .indexError
          | .s _ => throw .typeError
      | _ => throw .attributeError
  | winner :: _ =>
      match dget vals winner with
      | none => throw .keyError
      | some v =>
          let stored := idsDesc.filterMap (fun i => (dget vals i).map (fun w => (i, w)))
          match obj with
          | .vmap oid entries recentOps =>
              pure (.vmap oid (dset entries key v) (dset recentOps key stored))
          | .vlist oid elems elemIds recentOps =>
              match key with
              | .i idx =>
                  if idx < elems.length then
                    if idx < recentOps.length then
                      pure (.vlist oid (elems.set idx v) elemIds
                        (recentOps.set idx (some stored)))
                    else throw .indexError
                  else throw .indexError
              | .s _ => throw .typeError
          | _ => throw .attributeError
termination_by 2 * sizeOf patchRecentOps + 3

/-- The inner loop of `apply_properties` computing `values[patch_op_id]`:
each entry's value is computed by `compute_value1`. -/
def compute_values (obj : AMVal) (key : PyKey)
    (patchRecentOps : List (String × Patch)) :
    Except Err (List (String × AMVal)) :=
  match patchRecentOps with
  | [] => pure []
  | (opId, subpatch) :: rest => do
      let v ← compute_value1 obj key opId subpatch
      let vs ← compute_values obj key rest
      pure ((opId, v) :: vs)
termination_by 2 * sizeOf patchRecentOps + 2

/-- One entry of the `values` computation in `apply_properties`: an op id
already present in the object's `recent_ops` at that key is updated in place
via `get_value`, otherwise a fresh empty container of the subpatch's type
(or `None` for a primitive description) seeds `get_value`. -/
def compute_value1 (obj : AMVal) (key : PyKey) (opId : String) (subpatch : Patch) :
    Except Err AMVal :=
  match compute_conflict obj key opId, subpatch with
  | some c, p => get_value c p
  | none, .node oid2 ty2 ps2 es2 =>
      get_value (if ty2 = "map" then .vmap oid2 [] [] else .vlist oid2 [] [] [])
        (.node oid2 ty2 ps2 es2)
  | none, p => get_value .vnone p
termination_by 2 * sizeOf subpatch + 2

end


/-- Python value handed to the frontend by the application: primitives,
`Counter`, a plain `dict`/`list`, or a document container that already has an
`object_id` attribute (`hasattr(val, "object_id")` in `set_value`). -/
inductive PyVal where
  | pnone
  | pint (n : Int)
  | pbool (b : Bool)
  | pstr (s : String)
  | pcounter (n : Int)
  | pdict (objId : Option String) (entries : List (String × PyVal))
  | plist (objId : Option String) (items : List PyVal)

/-- Conversion of a primitive Python value to its materialised form (the
container cases are unreachable on the code path that uses this). -/
def toAMPrim : PyVal → AMVal
  | .pnone => .vnone
  | .pint n => .vint n
  | .pbool b => .vbool b
  | .pstr s => .vstr s
  | .pcounter n => .vcounter n
  | .pdict _ _ => .vnone
  | .plist _ _ => .vnone

/-- Numeric view of a materialised value (`bool` and `Counter` are `int`
subclasses in Python, so they compare numerically). -/
def amNum : AMVal → Option Int
  | .vint n => some n
  | .vbool b => some (if b then 1 else 0)
  | .vcounter n => some n
  | _ => none

/-- Numeric view of an application value. -/
def pyNum : PyVal → Option Int
  | .pint n => some n
  | .pbool b => some (if b then 1 else 0)
  | .pcounter n => some n
  | _ => none

mutual

/-- Python `==` between a materialised value and an application value, as
used by `self.assoc_obj[key] != val` in the proxies: numbers compare
numerically, containers compare structurally like Python dicts/lists. -/
def pyEq (a : AMVal) (b : PyVal) : Bool :=
  match amNum a, pyNum b with
  | some x, some y => x == y
  | _, _ =>
      match a, b with
      | .vnone, .pnone => true
      | .vstr s, .pstr t => s == t
      | .vmap _ entries _, .pdict _ des =>
          entries.length == des.length && py_eq_dict_loop entries des
      | .vlist _ elems _ _, .plist _ items => py_eq_list_loop elems items
      | _, _ => false
termination_by 2 * sizeOf b

/-- Dict equality: every key of the right dict is present on the left with an
equal value (lengths are compared by the caller). -/
def py_eq_dict_loop (entries : List (PyKey × AMVal)) (des : List (String × PyVal)) :
    Bool :=
  match des with
  | [] => true
  | (k, v) :: rest =>
      (match dget entries (.s k) with
       | some av => pyEq av v
       | none => false) && py_eq_dict_loop entries rest
termination_by 2 * sizeOf des + 1

/-- Elementwise list equality. -/
def py_eq_list_loop (as_ : List AMVal) (bs : List PyVal) : Bool :=
  match as_, bs with
  | [], [] => true
  | a :: as', b :: bs' => pyEq a b && py_eq_list_loop as' bs'
  | _, _ => false
termination_by 2 * sizeOf bs + 1

end

/-- Operation dict as built by `context.py` (`add_op` fills in the `pred` and
`insert` defaults; the callers of this embedding pass them explicitly). -/
structure Op where
  action : String
  obj : String
  key : Option PyKey
  elemId : Option String
  insert : Bool
  pred : List String
  value : Option AMVal

/-- Removes the `key` entry of an op (`add_op` does this whenever the op
carries an `elemId`). -/
def Op.dropKey : Op → Op
  | ⟨a, o, _, e, i, p, v⟩ => ⟨a, o, none, e, i, p, v⟩

/-- Keyword arguments threaded through `set_value` into `add_op`. -/
structure OpParams where
  pred : List String
  insert : Bool
  elemId : Option String

/-- Builds the op dict a caller of `add_op` assembles from keyword
arguments. -/
def mkOp (action : String) (obj : String) (key : Option PyKey)
    (value : Option AMVal) (p : OpParams) : Op :=
  ⟨action, obj, key, p.elemId, p.insert, p.pred, value⟩

/-- Edit context of `context.py`: the pending ops, the op counter base, the
actor id and the root object the patches are applied to.  `updated` models
the updated-object map `doc.py` reads (see the header comment). -/
structure Context where
  ops : List Op
  maxOp : Nat
  actorId : String
  rootObj : AMVal
  updated : List String

/-- Embeds `add_op` of `context.py` (lines 222–232): fill defaults, drop
`key` when an `elemId` is present, append, and return the op id
`(max_op + len(ops))@actor`. -/
def add_op (ctx : Context) (op : Op) : Context × String :=
  let op := if op.elemId.isSome then op.dropKey else op
  let ops' := ctx.ops ++ [op]
  (⟨ops', ctx.maxOp, ctx.actorId, ctx.rootObj, ctx.updated⟩,
   toString (ctx.maxOp + ops'.length) ++ "@" ++ ctx.actorId)

/-- Embeds `get_value_description` of `context.py`: containers are described
by `objectId`/`type`, anything else by its value. -/
def get_value_description : AMVal → Patch
  | .vmap oid _ _ => .node oid "map" none none
  | .vlist oid _ _ _ => .node oid "list" none none
  | v => .prim v

/-- Embeds `get_values_descriptions` of `context.py`: describe every value in
`obj.recent_ops[key]`. -/
def get_values_descriptions (obj : AMVal) (key : PyKey) :
    Except Err (List (String × Patch)) :=
  match obj with
  | .vmap _ _ recentOps =>
      match dget recentOps key with
      | some cs => pure (cs.map (fun p => (p.1, get_value_description p.2)))
      | none => throw .keyError
  | .vlist _ _ _ recentOps =>
      match key with
      | .i idx =>
          match recentOps.get? idx with
          | some (some cs) => pure (cs.map (fun p => (p.1, get_value_description p.2)))
          | some none => throw .attributeError
          | none => throw .indexError
      | .s _ => throw .typeError
  | _ => throw .attributeError

/-- Lookup `obj.recent_ops[key][op_id]` used while descending in
`get_subpatch`. -/
def recent_conflict (obj : AMVal) (key : PyKey) (opId : String) : Option AMVal :=
  match obj with
  | .vmap _ _ recentOps => (dget recentOps key).bind (fun cs => dget cs opId)
  | .vlist _ _ _ recentOps =>
      match key with
      | .i idx =>
          match recentOps.get? idx with
          | some (some cs) => dget cs opId
          | _ => none
      | .s _ => none
  | _ => none

/-- Embeds `get_subpatch` of `context.py` (lines 100–121): walk `path`
through the cached tree, describing each traversed key's conflict values and
descending into the entry whose op id matches the path component; the leaf
gets an empty `props` dict which the callback then fills.  A path component
that does not resolve raises `KeyError` just as `values[None]` does. -/
def get_subpatch (ctx : Context) (obj : AMVal) (path : List (PyKey × String))
    (oid ty : String) (cb : Context → Patch → Except Err (Context × Patch)) :
    Except Err (Context × Patch) :=
  match path with
  | [] => cb ctx (.node oid ty (some []) none)
  | (key, objectId) :: rest => do
      let descrs ← get_values_descriptions obj key
      match dget descrs objectId with
      | none => throw .keyError
      | some d =>
          match d with
          | .node childOid childTy _ _ => do
              let child ←
                match recent_conflict obj key objectId with
                | some c => pure c
                | none => throw .keyError
              let (ctx', sub) ← get_subpatch ctx child rest childOid childTy cb
              pure (ctx', .node oid ty (some [(key, dset descrs objectId sub)]) none)
          | _ => throw .keyError

/-- Embeds `apply_at_path` of `context.py` (lines 123–143): build the patch
rooted at `_root`, let the callback fill the leaf, then apply the patch to
the root object. -/
def apply_at_path (ctx : Context) (path : List (PyKey × String))
    (cb : Context → Patch → Except Err (Context × Patch)) : Except Err Context := do
  let (ctx', diffs) ← get_subpatch ctx ctx.rootObj path "_root" "map" cb
  let root' ← apply_patch ctx.rootObj diffs
  pure ⟨ctx'.ops, ctx'.maxOp, ctx'.actorId, root', ctx'.updated ++ ["_root"]⟩

/-- Sort order of `sorted(val.keys())` lifted to the dict's pairs. -/
def py_dict_key_le (a b : String × PyVal) : Prop := a.1 ≤ b.1

instance : DecidableRel py_dict_key_le :=
  fun a b => inferInstanceAs (Decidable (a.1 ≤ b.1))

/-- Default (absent) keyword arguments of a recursive `set_value` call. -/
def noParams : OpParams := ⟨[], false, none⟩

mutual

/-- Embeds `set_value` of `context.py` (lines 145–220).  A dict value first
checks the empty-key precondition and the `object_id` reference check, then
emits `makeMap` and recurses over the sorted keys; a list value emits
`makeList` and recurses over the items threading the previous element id;
anything else emits a single `set` op.  The returned patch is the description
later applied to the cached tree, paired with the op id that created the
value. -/
def set_value (ctx : Context) (parentObjId : String) (key : PyKey) (val : PyVal)
    (params : OpParams) : Except Err (Patch × String × Context) :=
  match val with
  | .pdict objId entries =>
      if key = .s "" then
        throw (.valueError "The key of a map entry must not be an empty string")
      else if objId.isSome then
        throw (.valueError "Cannot create a reference to existing document object")
      else
        let (ctx1, createOpId) := add_op ctx (mkOp "makeMap" parentObjId (some key) none params)
        do
          let (props, ctx2) ← set_value_dict_loop ctx1 createOpId
            (List.insertionSort py_dict_key_le entries)
          pure (.node createOpId "map" (some props) none, createOpId, ctx2)
  | .plist objId items =>
      let _ := objId
      let (ctx1, createListOpId) := add_op ctx (mkOp "makeList" parentObjId (some key) none params)
      do
        let (props, edits, ctx2) ← set_value_list_loop ctx1 createListOpId 0 "_head" items
        pure (.node createListOpId "list" (some props) (some edits), createListOpId, ctx2)
  | v =>
      let description := Patch.prim (toAMPrim v)
      let (ctx1, opId) := add_op ctx (mkOp "set" parentObjId (some key) (some (toAMPrim v)) params)
      pure (description, opId, ctx1)
termination_by 2 * sizeOf val
decreasing_by
all_goals simp_wf
all_goals try omega
all_goals
  (have hp := List.Perm.sizeOf_eq_sizeOf (List.perm_insertionSort py_dict_key_le entries)
   omega)

/-- The `for child_key in sorted(val.keys())` loop of `set_value`. -/
def set_value_dict_loop (ctx : Context) (parent : String)
    (todo : List (String × PyVal)) :
    Except Err (List (PyKey × List (String × Patch)) × Context) :=
  match todo with
  | [] => pure ([], ctx)
  | (childKey, childVal) :: rest => do
      let (valuePatch, childOpId, ctx1) ← set_value ctx parent (.s childKey) childVal noParams
      let (props, ctx2) ← set_value_dict_loop ctx1 parent rest
      pure ((.s childKey, [(childOpId, valuePatch)]) :: props, ctx2)
termination_by 2 * sizeOf todo + 1

/-- The `for idx, item in enumerate(val)` loop of `set_value`: each item is
inserted after the previous element's op id and contributes one `props` entry
and one `insert` edit. -/
def set_value_list_loop (ctx : Context) (parent : String) (idx : Nat)
    (elemId : String) (todo : List PyVal) :
    Except Err (List (PyKey × List (String × Patch)) × List Edit × Context) :=
  match todo with
  | [] => pure ([], [], ctx)
  | item :: rest => do
      let (valuePatch, listElementOpId, ctx1) ←
        set_value ctx parent (.i idx) item ⟨[], true, some elemId⟩
      let (props, edits, ctx2) ←
        set_value_list_loop ctx1 parent (idx + 1) listElementOpId rest
      pure ((.i idx, [(listElementOpId, valuePatch)]) :: props,
        (.insert idx listElementOpId) :: edits, ctx2)
termination_by 2 * sizeOf todo + 1

end

/-- Embeds `Map.get_pred` of `datatypes.py`. -/
def map_get_pred (recentOps : List (PyKey × List (String × AMVal))) (key : PyKey) :
    List String :=
  match dget recentOps key with
  | some cs => cs.map Prod.fst
  | none => []

/-- Embeds `List.get_pred` of `datatypes.py`: an in-range index whose
`recent_ops` entry is a `None` placeholder raises `AttributeError` on
`.keys()`. -/
def list_get_pred (recentOps : List (Option (List (String × AMVal)))) (idx : Nat) :
    Except Err (List String) :=
  if idx < recentOps.length then
    match recentOps.get? idx with
    | some (some cs) => pure (cs.map Prod.fst)
    | some none => throw .attributeError
    | none => throw .indexError
  else pure []

/-- Slot currently holds a `Counter` (`isinstance(self.assoc_obj[key], Counter)`). -/
def isCounterSlot : Option AMVal → Bool
  | some (.vcounter _) => true
  | _ => false

/-- The `self.assoc_obj[key] != val` comparison (the slot is known present). -/
def pyEqOpt : Option AMVal → PyVal → Bool
  | some a, v => pyEq a v
  | none, _ => false

/-- The callback's `subpatch["props"][key] = {...}` assignment (and, for list
callbacks, `subpatch["edits"] = [...]`). -/
def set_prop_in_subpatch (sub : Patch) (key : PyKey)
    (entry : List (String × Patch)) (edits : Option (List Edit)) :
    Except Err Patch :=
  match sub with
  | .node o t (some ps) es =>
      pure (.node o t (some (dset ps key entry))
        (match edits with
         | some e => some e
         | none => es))
  | _ => throw .keyError

/-- Embeds `MapProxy.__setitem__` of `proxies.py` (lines 18–35): a non-string
key raises, a slot currently holding a `Counter` silently returns, and an
effective assignment computes `pred`, records the ops via `set_value`, and
applies the resulting patch at the proxy's path. -/
def map_proxy_setitem (ctx : Context) (assocObj : AMVal)
    (path : List (PyKey × String)) (key : PyKey) (val : PyVal) :
    Except Err Context :=
  match key with
  | .i _ => throw (.exception "TODO: msg")
  | .s k =>
      match assocObj with
      | .vmap oid entries recentOps =>
          let settingNewValue := !(dhas entries (.s k))
          if !settingNewValue && isCounterSlot (dget entries (.s k)) then pure ctx
          else if settingNewValue || !(pyEqOpt (dget entries (.s k)) val) then
            apply_at_path ctx path (fun c sub => do
              let preds := map_get_pred recentOps (.s k)
              let (valuePatch, opId, c1) ← set_value c oid (.s k) val ⟨preds, false, none⟩
              let sub' ← set_prop_in_subpatch sub (.s k) [(opId, valuePatch)] none
              pure (c1, sub'))
          else pure ctx
      | _ => throw .attributeError

/-- Embeds `ListProxy.insert` of `proxies.py` (lines 121–147): the index is
clamped into `[0, len]`, the predecessor element id is `_head` at the front
and `elem_ids[idx-1]` otherwise, and the callback records an insert op and an
insert edit at the clamped index. -/
def list_proxy_insert (ctx : Context) (assocList : AMVal)
    (path : List (PyKey × String)) (idx : Int) (val : PyVal) :
    Except Err Context :=
  match assocList with
  | .vlist oid _elems elemIds recentOps => do
      let slen : Int := (_elems.length : Int)
      let idxN : Nat := (if idx > slen then slen else if idx < 0 then 0 else idx).toNat
      let elemId ←
        if idxN = 0 then pure "_head"
        else
          match elemIds.get? (idxN - 1) with
          | some e => pure e
          | none => throw .indexError
      let preds ← list_get_pred recentOps idxN
      apply_at_path ctx path (fun c sub => do
        let (valuePatch, opId, c1) ← set_value c oid (.i idxN) val ⟨preds, true, some elemId⟩
        let sub' ← set_prop_in_subpatch sub (.i idxN) [(opId, valuePatch)]
          (some [.insert idxN opId])
        pure (c1, sub'))
  | _ => throw .attributeError

/-- Change dict produced by `Doc.__make_change` in `doc.py` (the method is
unreachable in the source: see `finish_change_block`). -/
structure Change where
  actor : String
  seq : Nat
  startOp : Nat
  deps : List String
  time : Int
  message : String
  ops : List Op

/-- Entry of `Doc.cache`: `doc.py` line 25 seeds the cache with
`{"_root": self}` — the `Doc` object itself, not a materialised `Map`. -/
inductive CacheEntry where
  | docRef
deriving DecidableEq

/-- The context `doc.py` line 50 actually constructs: the call
`Context(self.actor_id, 0, self.cache)` fills the positional parameters
`(max_op, actor_id, root_obj)` declared by `context.py` line 63 in a
transposed order, so the `max_op` field receives the actor id string, the
`actor_id` field receives the integer `0`, and `root_obj` receives the cache
dict.  The fields here are typed by the values that call site passes. -/
structure DocContext where
  ops : List Op
  max_op : String
  actor_id : Int
  root_obj : List (String × CacheEntry)

/-- The root proxy `doc.py` line 51 constructs: `MapProxy(ctx, "_root", [])`
binds the *string* `"_root"` as `assoc_obj` (`proxies.py` lines 7–12).  The
context attribute is named `ctx` — `MapProxy` defines no `context`
attribute. -/
structure DocMapProxy where
  assoc_obj : String
  ctx : DocContext
  path : List (PyKey × String)

/-- Document state of `doc.py` in the order `__init__` assigns it (`clock`,
never read, is omitted); `requests` counts the queued-request list, whose
entries reference the document itself. -/
structure Doc where
  change : Option Change
  root_proxy : Option DocMapProxy
  actor_id : String
  object_id : String
  cache : List (String × CacheEntry)
  seq : Nat
  max_op : Nat
  requests : Nat
  deps : List String

/-- Embeds `Doc.__start_change_block` (doc.py lines 45–51): a stored root
proxy raises before anything is mutated (`if self.root_proxy:` goes through
`MutableMapping.__len__`, and the only proxy ever stored wraps the
5-character string `"_root"`, so a stored proxy is always truthy); otherwise
the transposed context and the string-wrapping proxy are installed. -/
def start_change_block (d : Doc) : Except Err Doc :=
  match d.root_proxy with
  | some _ => throw (.exception "Cannot change doc while already in change")
  | none =>
      pure ⟨d.change, some ⟨"_root", ⟨[], d.actor_id, 0, d.cache⟩, []⟩,
        d.actor_id, d.object_id, d.cache, d.seq, d.max_op, d.requests, d.deps⟩

/-- Embeds `Doc.__finish_change_block` (doc.py lines 62–68): after the
assert, the method reads `self.root_proxy.context`, but `MapProxy` stores the
attribute under the name `ctx` (`proxies.py` line 9), so the read raises
`AttributeError` on every call.  The commit logic below the read
(`ctx.updated`, which `Context` also does not define, and `__make_change`) is
unreachable. -/
def finish_change_block (d : Doc) : Except Err Doc :=
  match d.root_proxy with
  | none => throw (.exception "AssertionError")
  | some _ => throw .attributeError

/-- Embeds `Doc.__init__` (doc.py lines 20–39) with the default empty
`start_data`: assign the plain fields, open the initial change block, skip
the empty assignment loop, and call `__finish_change_block` — which
raises. -/
def doc_new (actor : String) : Except Err Doc := do
  let d0 : Doc := ⟨none, none, actor, "_root", [("_root", .docRef)], 0, 0, 0, []⟩
  let d1 ← start_change_block d0
  finish_change_block d1

/-- Embeds `Doc.__exit__` (doc.py lines 54–60): `__finish_change_block` runs
first; the traceback is only inspected afterwards, and that branch merely
returns. -/
def doc_exit (d : Doc) (excRaised : Bool) : Except Err Doc := do
  let d' ← finish_change_block d
  let _ := excRaised
  pure d'

/-- Python `key in s` on strings is substring containment. -/
def py_str_in (needle hay : String) : Bool :=
  decide (needle.data <:+: hay.data)

/-- Embeds the assignment `self.root_proxy[key] = val` of `Doc.__init__`'s
loop, or of user code inside a `with` block (`MapProxy.__setitem__`,
`proxies.py` lines 18–35, on the doc-level proxy whose `assoc_obj` is the
string `"_root"`): `key not in self.assoc_obj` is a substring test on
`"_root"`; when the key is not a substring, the callback path runs and its
first statement `self.assoc_obj.get_pred(key)` raises `AttributeError`
(`str` has no `get_pred`); when the key is a substring, the
`isinstance(self.assoc_obj[key], Counter)` guard indexes the string with a
string key and raises `TypeError`.  With no proxy stored,
`None[key] = ...` is a `TypeError`. -/
def doc_set_root (d : Doc) (key : String) (val : PyVal) : Except Err Doc :=
  match d.root_proxy with
  | none => throw .typeError
  | some prx =>
      let _ := val
      let settingNewValue := !(py_str_in key prx.assoc_obj)
      if settingNewValue then throw .attributeError
      else throw .typeError

/-- Embeds `Context.add_op` (context.py lines 222–232) on the context
`doc.py` constructs: the defaults are filled in and the op appended, then the
op-id f-string computes `self.max_op + len(self.ops)` — a string plus an
int, the transposed constructor having left the actor id in `max_op` — so
`add_op` raises `TypeError` before an op id is ever produced. -/
def doc_add_op (ctx : DocContext) (op : Op) : Except Err (DocContext × String) :=
  let op := if op.elemId.isSome then op.dropKey else op
  let _ := ctx.ops ++ [op]
  throw .typeError

/-- Python string slice `s[:n]` (by code points). -/
def py_take (s : String) (n : Nat) : String := String.mk (s.data.take n)

/-- Python string slice `s[n:]` (by code points). -/
def py_drop (s : String) (n : Nat) : String := String.mk (s.data.drop n)

/-- Embeds `FileSystemStorage._key_to_path` of `src/src/automerge/repo.py`
(lines 212–243), with paths as lists of segments relative to the base
directory: the first key component is splayed into its first two characters
and the remainder; an empty key or a first component shorter than three
characters raises `ValueError`. -/
def key_to_path (key : List String) : Except String (List String) :=
  match key with
  | [] => .error "Storage key must have at least one part"
  | first :: rest =>
      if first.length < 3 then
        .error "First key component must have at least 3 characters"
      else
        .ok ([py_take first 2, py_drop first 2] ++ rest)

/-- Embeds `FileSystemStorage._path_to_key` of `src/src/automerge/repo.py`
(lines 245–272): the first two path segments are joined back into the
original first key component. -/
def path_to_key (parts : List String) : Except String (List String) :=
  if parts.length < 2 then .error "Invalid storage path"
  else
    match parts with
    | splayDir :: splayRest :: rest => .ok ((splayDir ++ splayRest) :: rest)
    | _ => .error "Invalid storage path"

/-! The backend that stores, hashes and materialises changes (`save`, `load`,
`apply_change`) is not part of the sources here — the repository only ships
its callers and tests — so the determinism claim is settled against a model
built from the specification's words (§3, §4.1 and §4.2). -/

/-- Modelled from the spec: op id `(counter, actor)`; Lamport order compares
the counter first and breaks ties lexicographically on the actor id. -/
structure SpecOpId where
  counter : Nat
  actor : String
deriving DecidableEq

/-- Modelled from the spec: scalar or composite-reference value held in a
conflict set (§3 "values are composite-ids or (scalarType, scalar) pairs"). -/
inductive SpecVal where
  | null
  | int (n : Int)
  | str (s : String)
  | bool (b : Bool)
  | counter (n : Int)
  | ref (objectId : String)
deriving DecidableEq

/-- Modelled from the spec: one operation (§3) with its action, target
object, key or element id, insert flag, `pred` set and value; `mark` fields
are carried inline. -/
structure SpecOp where
  action : String
  obj : String
  key : String
  insert : Bool
  pred : List String
  value : SpecVal
  markName : String
  markEnd : String
  markExpand : String
deriving DecidableEq

/-- Modelled from the spec: a change bundles ops with `actor`, `seq`,
`startOp` and `deps` (§3). -/
structure SpecChange where
  actor : String
  seq : Nat
  startOp : Nat
  deps : List String
  ops : List SpecOp
deriving DecidableEq

/-- Modelled from the spec: a composite object exposing per-slot conflict
sets, a position order for sequences, and marks for text (§3, §4.2). -/
structure SpecObj where
  ty : String
  slots : List (String × List (String × SpecVal))
  order : List String
  marks : List (String × String × String × SpecVal × String)
deriving DecidableEq

/-- Modelled from the spec: canonical encoding of a value. -/
def spec_encode_val : SpecVal → String
  | .null => "null"
  | .int n => "int:" ++ toString n
  | .str s => "str:" ++ s
  | .bool b => "bool:" ++ toString b
  | .counter n => "counter:" ++ toString n
  | .ref o => "ref:" ++ o

/-- Modelled from the spec: canonical encoding of one op (a fixed field
order, §4.1). -/
def spec_encode_op (o : SpecOp) : String :=
  o.action ++ "|" ++ o.obj ++ "|" ++ o.key ++ "|" ++ toString o.insert ++ "|" ++
    String.intercalate "," o.pred ++ "|" ++ spec_encode_val o.value ++ "|" ++
    o.markName ++ "|" ++ o.markEnd ++ "|" ++ o.markExpand

/-- Modelled from the spec: canonical encoding of a change (length-prefixed
fields in a fixed order, §4.1); the change's content hash is computed over
this form, and the model identifies the hash with the canonical bytes. -/
def spec_encode_change (c : SpecChange) : String :=
  c.actor ++ ";" ++ toString c.seq ++ ";" ++ toString c.startOp ++ ";" ++
    String.intercalate "," c.deps ++ ";" ++
    String.intercalate "&" (c.ops.map spec_encode_op)

/-- Modelled from the spec: the content address of a change. -/
def spec_change_hash (c : SpecChange) : String := spec_encode_change c

/-- Numbers each op of a change: the i-th op has id `(startOp + i, actor)`
(§3). -/
def spec_number_ops (actor : String) (startOp : Nat) :
    List SpecOp → List (SpecOpId × SpecOp)
  | [] => []
  | o :: rest => (⟨startOp, actor⟩, o) :: spec_number_ops actor (startOp + 1) rest

/-- All ops of a change paired with their op ids. -/
def spec_change_ops (c : SpecChange) : List (SpecOpId × SpecOp) :=
  spec_number_ops c.actor c.startOp c.ops

/-- Modelled from the spec: Lamport order on op ids (counter dominates,
actor id breaks ties). -/
def spec_lam_le (a b : SpecOpId) : Prop :=
  a.counter < b.counter ∨ (a.counter = b.counter ∧ a.actor ≤ b.actor)

instance : DecidableRel spec_lam_le :=
  fun a b =>
    inferInstanceAs (Decidable (a.counter < b.counter ∨ (a.counter = b.counter ∧ a.actor ≤ b.actor)))

/-- Lamport order lifted to numbered ops. -/
def spec_op_le (a b : SpecOpId × SpecOp) : Prop := spec_lam_le a.1 b.1

instance : DecidableRel spec_op_le :=
  fun a b => inferInstanceAs (Decidable (spec_lam_le a.1 b.1))

/-- Printed form of an op id. -/
def spec_id_str (i : SpecOpId) : String := toString i.counter ++ "@" ++ i.actor

/-- Modelled from the spec (§4.2): place a fresh sequence position directly
after the element it was inserted after (`_head` means the front); because
ops are folded in ascending Lamport order, later inserts at the same
predecessor land closer to it, which yields the spec's descending-by-op-id
RGA order. -/
def spec_order_insert (order : List String) (afterElem newElem : String) :
    List String :=
  if afterElem = "_head" then newElem :: order
  else
    match order with
    | [] => [newElem]
    | e :: rest =>
        if e = afterElem then e :: newElem :: rest
        else e :: spec_order_insert rest afterElem newElem

/-- Modelled from the spec (§4.2 `set`/`ins`): update the parent slot —
remove every op id in `pred` from the conflict set and insert the new entry,
or allocate a fresh position when `insert` is set. -/
def spec_update_slot (obj : SpecObj) (key : String) (insert : Bool)
    (pred : List String) (idStr : String) (v : SpecVal) : SpecObj :=
  if insert then
    ⟨obj.ty, dset obj.slots idStr [(idStr, v)],
      spec_order_insert obj.order key idStr, obj.marks⟩
  else
    let cs := ((dget obj.slots key).getD []).filter (fun e => !(pred.contains e.1))
    ⟨obj.ty, dset obj.slots key (cs ++ [(idStr, v)]), obj.order, obj.marks⟩

/-- Modelled from the spec (§4.2): fold one op into the object table. -/
def spec_apply_op (st : List (String × SpecObj)) (ido : SpecOpId × SpecOp) :
    List (String × SpecObj) :=
  let idStr := spec_id_str ido.1
  let o := ido.2
  if o.action = "makeMap" ∨ o.action = "makeList" ∨ o.action = "makeText" then
    let ty := if o.action = "makeMap" then "map"
      else if o.action = "makeList" then "list" else "text"
    let st1 := dset st idStr ⟨ty, [], [], []⟩
    match dget st1 o.obj with
    | some parent =>
        dset st1 o.obj (spec_update_slot parent o.key o.insert o.pred idStr (.ref idStr))
    | none => st1
  else if o.action = "set" then
    match dget st o.obj with
    | some obj => dset st o.obj (spec_update_slot obj o.key o.insert o.pred idStr o.value)
    | none => st
  else if o.action = "del" then
    match dget st o.obj with
    | some obj =>
        let cs := ((dget obj.slots o.key).getD []).filter (fun e => !(o.pred.contains e.1))
        dset st o.obj ⟨obj.ty, dset obj.slots o.key cs, obj.order, obj.marks⟩
    | none => st
  else if o.action = "inc" then
    match dget st o.obj, o.value with
    | some obj, .int delta =>
        let cs := ((dget obj.slots o.key).getD []).map (fun e =>
          match e.2 with
          | .counter n => if o.pred.contains e.1 then (e.1, SpecVal.counter (n + delta)) else e
          | _ => e)
        dset st o.obj ⟨obj.ty, dset obj.slots o.key cs, obj.order, obj.marks⟩
    | _, _ => st
  else if o.action = "mark" then
    match dget st o.obj with
    | some obj =>
        dset st o.obj ⟨obj.ty, obj.slots, obj.order,
          obj.marks ++ [(o.markName, o.key, o.markEnd, o.value, o.markExpand)]⟩
    | none => st
  else st

/-- Modelled from the spec (§4.2): the materialised object table is the fold
of all ops in ascending Lamport order over a table holding only the root
map.  It is a function of the set of changes alone (§3 "the materialisation
is a deterministic function of the set of changes in the log"). -/
def spec_materialise (log : List SpecChange) : List (String × SpecObj) :=
  (List.insertionSort spec_op_le (log.flatMap spec_change_ops)).foldl
    spec_apply_op [("_root", ⟨"map", [], [], []⟩)]

/-- Modelled from the spec (§4.1): `apply_change` appends a change whose
content hash is new and is a no-op on a change already present. -/
def spec_apply_change (log : List SpecChange) (c : SpecChange) : List SpecChange :=
  if (log.map spec_change_hash).contains (spec_change_hash c) then log
  else log ++ [c]

/-- Applying a list of changes, in order, to a fresh document. -/
def spec_apply_changes (cs : List SpecChange) : List SpecChange :=
  cs.foldl spec_apply_change []

/-- Canonical order of changes inside the save file. -/
def spec_change_le (a b : SpecChange) : Prop :=
  spec_encode_change a ≤ spec_encode_change b

instance : DecidableRel spec_change_le :=
  fun a b => inferInstanceAs (Decidable (spec_encode_change a ≤ spec_encode_change b))

/-- Modelled from the spec (§4.1): `save` serialises the change set in a
canonical order, so the bytes are a function of the set of changes alone. -/
def spec_save (log : List SpecChange) : String :=
  String.intercalate "#" ((List.insertionSort spec_change_le log).map spec_encode_change)

/-- A list of changes is in a valid topological order: every change's deps
are hashes of earlier changes. -/
def spec_topo_ok : List String → List SpecChange → Bool
  | _, [] => true
  | seen, c :: rest =>
      c.deps.all (fun dp => seen.contains dp) &&
        spec_topo_ok (seen ++ [spec_change_hash c]) rest

/-- Topological validity from an empty document. -/
def spec_topo (l : List SpecChange) : Bool := spec_topo_ok [] l

/-- Concrete run for the transaction-abort behaviour: construct `Doc("a")`,
enter a change block, set `"x" = 1`, and exit with the body having raised. -/
def doc_exception_run : Except Err Doc := do
  let d0 ← doc_new "a"
  let d1 ← start_change_block d0
  let d2 ← doc_set_root d1 "x" (.pint 1)
  doc_exit d2 true

/-- Concrete run for op-id allocation: `Doc("a")` followed by two successive
transactions, the first setting `"x" = 1`, the second `"y" = 2`. -/
def doc_two_txn_run : Except Err Doc := do
  let d0 ← doc_new "a"
  let d1 ← start_change_block d0
  let d2 ← doc_set_root d1 "x" (.pint 1)
  let d3 ← doc_exit d2 false
  let d4 ← start_change_block d3
  let d5 ← doc_set_root d4 "y" (.pint 2)
  doc_exit d5 false

/-- Application value is a primitive (not a dict or list). -/
def isPrimPy : PyVal → Bool
  | .pdict _ _ => false
  | .plist _ _ => false
  | _ => true

/-!  Theorems.  Each claim of the specification audit is settled by exactly
one theorem below; shared helper lemmas precede them. -/

theorem dget_dset_self {κ β : Type} [DecidableEq κ] (l : List (κ × β)) (k : κ) (v : β) :
    dget (dset l k v) k = some v := by
  induction l with
  | nil => simp [dset, dget]
  | cons h t ih =>
      obtain ⟨k0, v0⟩ := h
      by_cases hk : k = k0
      · subst hk; simp [dset, dget]
      · simp [dset, hk, dget, Ne.symm hk, ih]

theorem dget_dset_ne {κ β : Type} [DecidableEq κ] (l : List (κ × β)) (k k' : κ) (v : β)
    (h : k' ≠ k) : dget (dset l k v) k' = dget l k' := by
  induction l with
  | nil => simp [dset, dget, h]
  | cons hd t ih =>
      obtain ⟨k0, v0⟩ := hd
      by_cases hk : k = k0
      · subst hk; simp [dset, dget, h]
      · by_cases hk' : k' = k0
        · subst hk'; simp [dset, hk, dget]
        · simp [dset, hk, dget, hk', ih]

theorem dget_ddel_ne {κ β : Type} [DecidableEq κ] (l : List (κ × β)) (k k' : κ)
    (h : k' ≠ k) : dget (ddel l k) k' = dget l k' := by
  induction l with
  | nil => simp [ddel]
  | cons hd t ih =>
      obtain ⟨k0, v0⟩ := hd
      by_cases hk : k = k0
      · subst hk; simp [ddel, dget, h]
      · by_cases hk' : k' = k0
        · subst hk'; simp [ddel, hk, dget]
        · simp [ddel, hk, dget, hk', ih]

theorem dget_isSome_of_mem_keys {κ β : Type} [DecidableEq κ] {l : List (κ × β)} {k : κ}
    (h : k ∈ l.map Prod.fst) : (dget l k).isSome := by
  induction l with
  | nil => simp at h
  | cons hd t ih =>
      obtain ⟨k0, v0⟩ := hd
      by_cases hk : k = k0
      · subst hk; simp [dget]
      · simp [hk] at h
        obtain ⟨x, hx⟩ := h
        simp [dget, hk, ih (List.mem_map_of_mem Prod.fst hx)]

theorem mem_keys_of_dget_isSome {κ β : Type} [DecidableEq κ] {l : List (κ × β)} {k : κ}
    (h : (dget l k).isSome) : k ∈ l.map Prod.fst := by
  induction l with
  | nil => simp [dget] at h
  | cons hd t ih =>
      obtain ⟨k0, v0⟩ := hd
      by_cases hk : k = k0
      · subst hk; simp
      · simp [dget, hk] at h
        simp [hk, ih h]

theorem dget_eq_of_nodup {κ β : Type} [DecidableEq κ] {l : List (κ × β)}
    (hnd : (l.map Prod.fst).Nodup) {k : κ} {v : β} (h : (k, v) ∈ l) :
    dget l k = some v := by
  induction l with
  | nil => simp at h
  | cons hd t ih =>
      obtain ⟨k0, v0⟩ := hd
      simp at hnd
      rcases List.mem_cons.mp h with he | hmem
      · have h1 : k = k0 := congrArg Prod.fst he
        have h2 : v = v0 := congrArg Prod.snd he
        subst h1; subst h2
        simp [dget]
      · have hk : k ≠ k0 := fun he => hnd.1 v (he ▸ hmem)
        simp [dget, hk]
        exact ih hnd.2 hmem

theorem dget_map_snd {κ β γ : Type} [DecidableEq κ] (f : β → γ) (l : List (κ × β)) (k : κ) :
    dget (l.map (fun p => (p.1, f p.2))) k = (dget l k).map f := by
  induction l with
  | nil => simp [dget]
  | cons hd t ih =>
      obtain ⟨k0, v0⟩ := hd
      by_cases hk : k = k0
      · subst hk; simp [dget]
      · simp [dget, hk, ih]

theorem dset_map_fst_of_mem {κ β : Type} [DecidableEq κ] {l : List (κ × β)} {k : κ}
    (h : k ∈ l.map Prod.fst) (v : β) : (dset l k v).map Prod.fst = l.map Prod.fst := by
  induction l with
  | nil => simp at h
  | cons hd t ih =>
      obtain ⟨k0, v0⟩ := hd
      by_cases hk : k = k0
      · subst hk; simp [dset]
      · simp [hk] at h
        obtain ⟨x, hx⟩ := h
        simp [dset, hk, ih (List.mem_map_of_mem Prod.fst hx)]

theorem lamLe_iff (a b : String) :
    lamLe a b ↔ ((lamKey a).counter < (lamKey b).counter ∨
      ((lamKey a).counter = (lamKey b).counter ∧ (lamKey a).actorId ≤ (lamKey b).actorId)) := by
  unfold lamLe opIdCompare
  split_ifs with hc ha hlt
  · constructor
    · intro h
      exact Or.inl (by omega)
    · intro h
      rcases h with h | ⟨h, _⟩
      · omega
      · exact absurd h hc
  · have hc' : (lamKey a).counter = (lamKey b).counter := not_not.mp (by simpa using hc)
    refine iff_of_false (by omega) ?_
    rintro (h | ⟨_, h⟩)
    · omega
    · exact absurd (lt_of_le_of_lt h hlt) (lt_irrefl _)
  · have hc' : (lamKey a).counter = (lamKey b).counter := not_not.mp (by simpa using hc)
    exact iff_of_true (by omega) (Or.inr ⟨hc', le_of_not_lt hlt⟩)
  · have hc' : (lamKey a).counter = (lamKey b).counter := not_not.mp (by simpa using hc)
    have ha' : (lamKey a).actorId = (lamKey b).actorId := not_not.mp (by simpa using ha)
    exact iff_of_true (by omega) (Or.inr ⟨hc', le_of_eq ha'⟩)

theorem lamLe_refl (a : String) : lamLe a a := by
  rw [lamLe_iff]; exact Or.inr ⟨rfl, le_refl _⟩

theorem lamLe_total (a b : String) : lamLe a b ∨ lamLe b a := by
  rw [lamLe_iff, lamLe_iff]
  rcases lt_trichotomy (lamKey a).counter (lamKey b).counter with h | h | h
  · exact Or.inl (Or.inl h)
  · rcases le_total (lamKey a).actorId (lamKey b).actorId with ha | ha
    · exact Or.inl (Or.inr ⟨h, ha⟩)
    · exact Or.inr (Or.inr ⟨h.symm, ha⟩)
  · exact Or.inr (Or.inl h)

theorem lamLe_trans (a b c : String) (h1 : lamLe a b) (h2 : lamLe b c) : lamLe a c := by
  rw [lamLe_iff] at h1 h2 ⊢
  rcases h1 with h1 | ⟨h1, h1'⟩ <;> rcases h2 with h2 | ⟨h2, h2'⟩
  · exact Or.inl (lt_trans h1 h2)
  · exact Or.inl (h2 ▸ h1)
  · exact Or.inl (h1 ▸ h2)
  · exact Or.inr ⟨h1.trans h2, le_trans h1' h2'⟩

theorem sorted_all_rel_getLast {α : Type} {r : α → α → Prop} (hrefl : ∀ x, r x x) :
    ∀ (l : List α), l.Sorted r → ∀ x ∈ l, ∀ (h : l ≠ []), r x (l.getLast h) := by
  intro l
  induction l with
  | nil => intro _ x hx; simp at hx
  | cons a t ih =>
      intro hs x hx h
      match t, ih with
      | [], _ =>
          simp at hx
          subst hx
          exact hrefl x
      | b :: t', ih =>
          rw [List.getLast_cons (by simp)]
          have hs' := List.sorted_cons.mp hs
          rcases List.mem_cons.mp hx with hx | hx
          · subst hx
            exact hs'.1 _ (List.getLast_mem _)
          · exact ih hs'.2 x hx (by simp)

theorem pySortDesc_head_max {ids : List String} {w : String} {t : List String}
    (h : pySortDesc ids = w :: t) : w ∈ ids ∧ ∀ x ∈ ids, lamLe x w := by
  haveI : IsTotal String lamLe := ⟨lamLe_total⟩
  haveI : IsTrans String lamLe := ⟨lamLe_trans⟩
  have hsorted : (List.insertionSort lamLe ids).Sorted lamLe :=
    List.sorted_insertionSort lamLe ids
  have hperm : (List.insertionSort lamLe ids).Perm ids := List.perm_insertionSort lamLe ids
  unfold pySortDesc at h
  have hne : List.insertionSort lamLe ids ≠ [] := by
    intro he
    rw [he] at h
    simp at h
  have hlast : (List.insertionSort lamLe ids).getLast hne = w := by
    have h1 : (List.insertionSort lamLe ids).getLast? = some w := by
      rw [List.getLast?_eq_head?_reverse, h]
      rfl
    rwa [List.getLast?_eq_getLast _ hne, Option.some_inj] at h1
  constructor
  · exact hperm.mem_iff.mp (hlast ▸ List.getLast_mem hne)
  · intro x hx
    have hx' : x ∈ List.insertionSort lamLe ids := hperm.mem_iff.mpr hx
    have := sorted_all_rel_getLast lamLe_refl _ hsorted x hx' hne
    rwa [hlast] at this

theorem pySortDesc_perm (ids : List String) : (pySortDesc ids).Perm ids := by
  unfold pySortDesc
  exact (List.reverse_perm _).trans (List.perm_insertionSort lamLe ids)

theorem checkOpIdsParse_ok {ids : List String}
    (h : ∀ i ∈ ids, (parse_op_id i).isSome) : checkOpIdsParse ids = .ok () := by
  unfold checkOpIdsParse
  by_cases hl : ids.length ≤ 1
  · simp [hl]; rfl
  · simp only [hl, if_false]
    have : ids.find? (fun i => (parse_op_id i).isNone) = none := by
      rw [List.find?_eq_none]
      intro x hx
      simp [Option.isNone_iff_eq_none]
      intro he
      have := h x hx
      rw [he] at this
      simp at this
    rw [this]
    rfl

theorem map_fst_filterMap_dget {vals : List (String × AMVal)} {ids : List String}
    (h : ∀ i ∈ ids, (dget vals i).isSome) :
    (ids.filterMap (fun i => (dget vals i).map (fun w => (i, w)))).map Prod.fst = ids := by
  induction ids with
  | nil => simp
  | cons j rest ih =>
      have hj := h j (by simp)
      obtain ⟨w, hw⟩ := Option.isSome_iff_exists.mp hj
      simp only [List.filterMap_cons, hw]
      simp only [Option.map_some', List.map_cons]
      rw [ih (fun i hi => h i (by simp [hi]))]

theorem dget_filterMap_dget {vals : List (String × AMVal)} {ids : List String}
    (hnd : ids.Nodup) {i0 : String} {v : AMVal} (hi : i0 ∈ ids)
    (hv : dget vals i0 = some v) :
    dget (ids.filterMap (fun i => (dget vals i).map (fun w => (i, w)))) i0 = some v := by
  induction ids with
  | nil => simp at hi
  | cons j rest ih =>
      simp at hnd
      rcases List.mem_cons.mp hi with he | hmem
      · subst he
        simp only [List.filterMap_cons, hv]
        simp [Option.map_some', dget]
      · have hne : i0 ≠ j := by
          intro he; subst he; exact hnd.1 hmem
        cases hj : dget vals j with
        | none =>
            simp only [List.filterMap_cons, hj]
            simpa using ih hnd.2 hmem
        | some w =>
            simp only [List.filterMap_cons, hj]
            simp [Option.map_some', dget, hne]
            exact ih hnd.2 hmem

theorem except_bind_ok {α β : Type} {e : Except Err α} {f : α → Except Err β} {b : β}
    (h : e >>= f = .ok b) : ∃ a, e = .ok a ∧ f a = .ok b := by
  cases e with
  | error err => exact absurd h (by simp [Bind.bind, Except.bind])
  | ok a => exact ⟨a, rfl, by simpa [Bind.bind, Except.bind] using h⟩

theorem compute_values_keys {obj : AMVal} {key : PyKey}
    {pp : List (String × Patch)} {vals : List (String × AMVal)}
    (h : compute_values obj key pp = .ok vals) :
    vals.map Prod.fst = pp.map Prod.fst := by
  induction pp generalizing vals with
  | nil =>
      simp only [compute_values] at h
      have : vals = [] := by
        cases vals with
        | nil => rfl
        | cons a t => simp [pure, Except.pure] at h
      simp [this]
  | cons hd rest ih =>
      obtain ⟨opId, sub⟩ := hd
      simp only [compute_values] at h
      obtain ⟨v, hv, h⟩ := except_bind_ok h
      obtain ⟨vs, hvs, h⟩ := except_bind_ok h
      have : vals = (opId, v) :: vs := by
        simpa [pure, Except.pure] using h.symm
      subst this
      simp [ih hvs]

theorem throw_ne_ok {α : Type} (e : Err) (a : α) : (throw e : Except Err α) ≠ .ok a :=
  fun h => Except.noConfusion h

theorem pure_ok_inj {α : Type} {a b : α} (h : (pure a : Except Err α) = .ok b) : a = b := by
  simpa [pure, Except.pure] using h

theorem apply_property_vmap_inv {oid : String} {es : List (PyKey × AMVal)}
    {ro : List (PyKey × List (String × AMVal))} {key : PyKey}
    {pp : List (String × Patch)} {o : AMVal}
    (h : apply_property (.vmap oid es ro) key pp = .ok o) :
    (pp = [] ∧ o = .vmap oid (ddel es key) (ddel ro key)) ∨
    (∃ vals w t v, compute_values (.vmap oid es ro) key pp = .ok vals ∧
      pySortDesc (pp.map Prod.fst) = w :: t ∧ dget vals w = some v ∧
      o = .vmap oid (dset es key v)
        (dset ro key ((w :: t).filterMap (fun i => (dget vals i).map (fun u => (i, u)))))) := by
  simp only [apply_property] at h
  obtain ⟨u, hchk, h⟩ := except_bind_ok h
  obtain ⟨vals, hcv, h⟩ := except_bind_ok h
  split at h
  · rename_i hd
    left
    have hids : pp.map Prod.fst = [] := by
      have hperm := pySortDesc_perm (pp.map Prod.fst)
      rw [hd] at hperm
      exact hperm.symm.eq_nil
    refine ⟨List.map_eq_nil_iff.mp hids, ?_⟩
    split_ifs at h
    all_goals first
      | exact absurd h (throw_ne_ok _ _)
      | exact (pure_ok_inj h).symm
  · rename_i w t hd
    right
    split at h
    · exact absurd h (throw_ne_ok _ _)
    · rename_i v hw
      refine ⟨vals, w, t, v, hcv, hd, hw, ?_⟩
      rw [hd] at h
      exact (pure_ok_inj h).symm

theorem apply_property_vmap_frame {oid : String} {es : List (PyKey × AMVal)}
    {ro : List (PyKey × List (String × AMVal))} {key : PyKey}
    {pp : List (String × Patch)} {o : AMVal} {k : PyKey}
    (h : apply_property (.vmap oid es ro) key pp = .ok o) (hk : k ≠ key) :
    ∃ es' ro', o = .vmap oid es' ro' ∧ dget es' k = dget es k ∧ dget ro' k = dget ro k := by
  rcases apply_property_vmap_inv h with ⟨_, rfl⟩ | ⟨vals, w, t, v, _, _, _, rfl⟩
  · exact ⟨_, _, rfl, dget_ddel_ne _ _ _ hk, dget_ddel_ne _ _ _ hk⟩
  · exact ⟨_, _, rfl, dget_dset_ne _ _ _ _ hk, dget_dset_ne _ _ _ _ hk⟩

theorem apply_properties_loop_vmap_frame :
    ∀ (props : List (PyKey × List (String × Patch))) (oid : String)
      (es : List (PyKey × AMVal)) (ro : List (PyKey × List (String × AMVal)))
      (o : AMVal) (k : PyKey),
      apply_properties_loop (.vmap oid es ro) props = .ok o →
      k ∉ props.map Prod.fst →
      ∃ es' ro', o = .vmap oid es' ro' ∧ dget es' k = dget es k ∧ dget ro' k = dget ro k := by
  intro props
  induction props with
  | nil =>
      intro oid es ro o k h _
      simp only [apply_properties_loop] at h
      have : o = .vmap oid es ro := by simpa [pure, Except.pure] using h.symm
      exact ⟨es, ro, this, rfl, rfl⟩
  | cons hd rest ih =>
      intro oid es ro o k h hk
      obtain ⟨k0, pp0⟩ := hd
      simp only [apply_properties_loop] at h
      obtain ⟨o1, h1, h2⟩ := except_bind_ok h
      have hkne : k ≠ k0 := by
        intro he; exact hk (by simp [he])
      obtain ⟨es1, ro1, rfl, he1, hr1⟩ := apply_property_vmap_frame h1 hkne
      obtain ⟨es', ro', rfl, he2, hr2⟩ := ih oid es1 ro1 o k h2 (by
        intro hmem; exact hk (by simp [hmem]))
      exact ⟨es', ro', rfl, he2.trans he1, hr2.trans hr1⟩

theorem c2_core_map :
    ∀ (props : List (PyKey × List (String × Patch))) (oid : String)
      (es : List (PyKey × AMVal)) (ro : List (PyKey × List (String × AMVal)))
      (obj' : AMVal) (key : PyKey) (pp : List (String × Patch)),
      apply_properties_loop (.vmap oid es ro) props = .ok obj' →
      (props.map Prod.fst).Nodup →
      (key, pp) ∈ props →
      pp ≠ [] →
      ((pp.map Prod.fst).map lamKey).Nodup →
      ∃ es' ro' cs w v,
        obj' = .vmap oid es' ro' ∧
        dget ro' key = some cs ∧
        cs.map Prod.fst ≠ [] ∧
        w ∈ cs.map Prod.fst ∧
        (∀ x ∈ cs.map Prod.fst, lamLe x w) ∧
        dget cs w = some v ∧
        dget es' key = some v := by
  intro props
  induction props with
  | nil => intro _ _ _ _ _ _ _ _ hmem; simp at hmem
  | cons hd rest ih =>
      intro oid es ro obj' key pp h hnd hmem hne hpnodup
      obtain ⟨k0, pp0⟩ := hd
      simp only [apply_properties_loop] at h
      obtain ⟨o1, h1, h2⟩ := except_bind_ok h
      simp only [List.map_cons, List.nodup_cons] at hnd
      rcases List.mem_cons.mp hmem with he | hmem'
      · have hk : key = k0 := congrArg Prod.fst he
        have hp : pp = pp0 := congrArg Prod.snd he
        subst hk; subst hp
        rcases apply_property_vmap_inv h1 with ⟨hnil, _⟩ | ⟨vals, w, t, v, hcv, hsort, hw, rfl⟩
        · exact absurd hnil hne
        · have hkeys := compute_values_keys hcv
          have hids_nodup : (pp.map Prod.fst).Nodup := (List.Nodup.of_map _) hpnodup
          have hdesc_perm := pySortDesc_perm (pp.map Prod.fst)
          rw [hsort] at hdesc_perm
          have hdesc_nodup : (w :: t).Nodup := hdesc_perm.nodup_iff.mpr hids_nodup
          have hmax := pySortDesc_head_max hsort
          have hsome : ∀ i ∈ w :: t, (dget vals i).isSome := by
            intro i hi
            apply dget_isSome_of_mem_keys
            rw [hkeys]
            exact hdesc_perm.mem_iff.mp hi
          set stored := (w :: t).filterMap (fun i => (dget vals i).map (fun u => (i, u))) with hstored
          have hstored_keys : stored.map Prod.fst = w :: t := map_fst_filterMap_dget hsome
          obtain ⟨es', ro', rfl, hes, hro⟩ :=
            apply_properties_loop_vmap_frame rest oid _ _ obj' key h2 hnd.1
          refine ⟨es', ro', stored, w, v, rfl, ?_, ?_, ?_, ?_, ?_, ?_⟩
          · rw [hro, dget_dset_self]
          · rw [hstored_keys]; simp
          · rw [hstored_keys]; simp
          · intro x hx
            rw [hstored_keys] at hx
            exact hmax.2 x (hdesc_perm.mem_iff.mp hx)
          · exact dget_filterMap_dget hdesc_nodup (by simp) hw
          · rw [hes, dget_dset_self]
      · have hkne : key ≠ k0 := by
          intro he
          subst he
          exact hnd.1 (by exact List.mem_map_of_mem Prod.fst hmem')
        obtain ⟨es1, ro1, rfl, _, _⟩ := apply_property_vmap_frame h1 hkne
        exact ih oid es1 ro1 obj' key pp h2 hnd.2 hmem' hne hpnodup

theorem get?_set_ne {α : Type} :
    ∀ (l : List α) (i j : Nat) (a : α), i ≠ j → (l.set i a).get? j = l.get? j := by
  intro l
  induction l with
  | nil => intro i j a _; simp
  | cons hd t ih =>
      intro i j a hij
      cases i with
      | zero =>
          cases j with
          | zero => exact absurd rfl hij
          | succ j' => simp [List.set]
      | succ i' =>
          cases j with
          | zero => simp [List.set]
          | succ j' =>
              simp only [List.set, List.get?]
              exact ih i' j' a (fun he => hij (by rw [he]))

theorem get?_set_self {α : Type} :
    ∀ (l : List α) (i : Nat) (a : α), i < l.length → (l.set i a).get? i = some a := by
  intro l
  induction l with
  | nil => intro i a h; simp at h
  | cons hd t ih =>
      intro i a h
      cases i with
      | zero => simp [List.set]
      | succ i' =>
          simp only [List.set, List.get?]
          exact ih i' a (by simpa using h)

theorem apply_property_vlist_inv {oid : String} {el : List AMVal} {ei : List String}
    {ro : List (Option (List (String × AMVal)))} {key : PyKey}
    {pp : List (String × Patch)} {o : AMVal}
    (h : apply_property (.vlist oid el ei ro) key pp = .ok o) :
    ∃ idx, key = .i idx ∧
      ((pp = [] ∧ o = .vlist oid (el.eraseIdx idx) ei (ro.eraseIdx idx)) ∨
       (pp ≠ [] ∧ ∃ vals w t v,
         compute_values (.vlist oid el ei ro) key pp = .ok vals ∧
         pySortDesc (pp.map Prod.fst) = w :: t ∧ dget vals w = some v ∧
         idx < el.length ∧ idx < ro.length ∧
         o = .vlist oid (el.set idx v) ei
           (ro.set idx (some ((w :: t).filterMap
             (fun i => (dget vals i).map (fun u => (i, u)))))))) := by
  cases key with
  | s v =>
      exfalso
      simp only [apply_property.eq_def] at h
      obtain ⟨u, hchk, h⟩ := except_bind_ok h
      obtain ⟨vals, hcv, h⟩ := except_bind_ok h
      split at h
      all_goals try exact absurd h (throw_ne_ok _ _)
      all_goals split at h
      all_goals exact absurd h (throw_ne_ok _ _)
  | i idx =>
      refine ⟨idx, rfl, ?_⟩
      simp only [apply_property.eq_def] at h
      obtain ⟨u, hchk, h⟩ := except_bind_ok h
      obtain ⟨vals, hcv, h⟩ := except_bind_ok h
      split at h
      · rename_i hd
        left
        have hids : pp.map Prod.fst = [] := by
          have hperm := pySortDesc_perm (pp.map Prod.fst)
          rw [hd] at hperm
          exact hperm.symm.eq_nil
        refine ⟨List.map_eq_nil_iff.mp hids, ?_⟩
        split_ifs at h
        all_goals first
          | exact absurd h (throw_ne_ok _ _)
          | exact (pure_ok_inj h).symm
      · rename_i w t hd
        right
        have hne : pp ≠ [] := by
          intro he
          subst he
          simp [pySortDesc, List.insertionSort] at hd
        split at h
        · exact absurd h (throw_ne_ok _ _)
        · rename_i v hw
          refine ⟨hne, vals, w, t, v, hcv, hd, hw, ?_⟩
          split_ifs at h with h1 h2
          rw [hd] at h
          exact ⟨h1, h2, (pure_ok_inj h).symm⟩

theorem apply_property_vlist_frame {oid : String} {el : List AMVal} {ei : List String}
    {ro : List (Option (List (String × AMVal)))} {key : PyKey}
    {pp : List (String × Patch)} {o : AMVal} {j : Nat}
    (h : apply_property (.vlist oid el ei ro) key pp = .ok o) (hne : pp ≠ [])
    (hj : key ≠ .i j) :
    ∃ el' ro', o = .vlist oid el' ei ro' ∧ el'.get? j = el.get? j ∧
      ro'.get? j = ro.get? j := by
  obtain ⟨idx, hk, hcases⟩ := apply_property_vlist_inv h
  rcases hcases with ⟨hnil, _⟩ | ⟨_, vals, w, t, v, _, _, _, _, _, rfl⟩
  · exact absurd hnil hne
  · have hij : idx ≠ j := by
      intro he
      subst he
      exact hj hk
    exact ⟨_, _, rfl, get?_set_ne _ _ _ _ hij, get?_set_ne _ _ _ _ hij⟩

theorem apply_properties_loop_vlist_frame :
    ∀ (props : List (PyKey × List (String × Patch))) (oid : String)
      (el : List AMVal) (ei : List String)
      (ro : List (Option (List (String × AMVal)))) (o : AMVal) (j : Nat),
      apply_properties_loop (.vlist oid el ei ro) props = .ok o →
      (∀ q ∈ props, q.2 ≠ []) →
      ∃ el' ro', o = .vlist oid el' ei ro' ∧
        ((.i j) ∉ props.map Prod.fst →
          el'.get? j = el.get? j ∧ ro'.get? j = ro.get? j) := by
  intro props
  induction props with
  | nil =>
      intro oid el ei ro o j h _
      have : o = .vlist oid el ei ro := by
        simp only [apply_properties_loop] at h
        exact (pure_ok_inj h).symm
      exact ⟨el, ro, this, fun _ => ⟨rfl, rfl⟩⟩
  | cons hd rest ih =>
      intro oid el ei ro o j h hne
      obtain ⟨k0, pp0⟩ := hd
      simp only [apply_properties_loop] at h
      obtain ⟨o1, h1, h2⟩ := except_bind_ok h
      have hne0 : pp0 ≠ [] := hne (k0, pp0) (by simp)
      obtain ⟨idx, hk, hcases⟩ := apply_property_vlist_inv h1
      rcases hcases with ⟨hnil, _⟩ | ⟨_, vals, w, t, v, hcv, hsort, hw, hl1, hl2, rfl⟩
      · exact absurd hnil hne0
      · obtain ⟨el', ro', rfl, hrest⟩ :=
          ih oid _ ei _ o j h2 (fun q hq => hne q (by simp [hq]))
        refine ⟨el', ro', rfl, ?_⟩
        intro hj
        have hjrest : (.i j) ∉ rest.map Prod.fst := fun hmem => hj (by simp [hmem])
        have hij : idx ≠ j := by
          intro he
          subst he
          exact hj (by simp [hk ▸ List.mem_map_of_mem Prod.fst (List.mem_cons_self (k0, pp0) rest), hk])
        obtain ⟨he, hr⟩ := hrest hjrest
        exact ⟨he.trans (get?_set_ne _ _ _ _ hij), hr.trans (get?_set_ne _ _ _ _ hij)⟩

theorem c2_core_list :
    ∀ (props : List (PyKey × List (String × Patch))) (oid : String)
      (el : List AMVal) (ei : List String)
      (ro : List (Option (List (String × AMVal)))) (obj' : AMVal) (idx : Nat)
      (pp : List (String × Patch)),
      apply_properties_loop (.vlist oid el ei ro) props = .ok obj' →
      (props.map Prod.fst).Nodup →
      (∀ q ∈ props, q.2 ≠ []) →
      (.i idx, pp) ∈ props →
      ((pp.map Prod.fst).map lamKey).Nodup →
      ∃ el' ro' cs w v,
        obj' = .vlist oid el' ei ro' ∧
        ro'.get? idx = some (some cs) ∧
        cs.map Prod.fst ≠ [] ∧
        w ∈ cs.map Prod.fst ∧
        (∀ x ∈ cs.map Prod.fst, lamLe x w) ∧
        dget cs w = some v ∧
        el'.get? idx = some v := by
  intro props
  induction props with
  | nil => intro _ _ _ _ _ _ _ _ _ _ hmem; simp at hmem
  | cons hd rest ih =>
      intro oid el ei ro obj' idx pp h hnd hall hmem hpnodup
      obtain ⟨k0, pp0⟩ := hd
      simp only [apply_properties_loop] at h
      obtain ⟨o1, h1, h2⟩ := except_bind_ok h
      simp only [List.map_cons, List.nodup_cons] at hnd
      rcases List.mem_cons.mp hmem with he | hmem'
      · have hk : PyKey.i idx = k0 := congrArg Prod.fst he
        have hp : pp = pp0 := congrArg Prod.snd he
        subst hp
        obtain ⟨idx', hk', hcases⟩ := apply_property_vlist_inv h1
        rcases hcases with ⟨hnil, _⟩ | ⟨_, vals, w, t, v, hcv, hsort, hw, hlen1, hlen2, rfl⟩
        · exact absurd hnil (hall (k0, pp) (by simp))
        · have hidx : idx = idx' := by
            have h12 := hk.trans hk'
            simpa using h12
          subst hidx
          have hkeys := compute_values_keys hcv
          have hids_nodup : (pp.map Prod.fst).Nodup := (List.Nodup.of_map _) hpnodup
          have hdesc_perm := pySortDesc_perm (pp.map Prod.fst)
          rw [hsort] at hdesc_perm
          have hdesc_nodup : (w :: t).Nodup := hdesc_perm.nodup_iff.mpr hids_nodup
          have hmax := pySortDesc_head_max hsort
          have hsome : ∀ i ∈ w :: t, (dget vals i).isSome := by
            intro i hi
            apply dget_isSome_of_mem_keys
            rw [hkeys]
            exact hdesc_perm.mem_iff.mp hi
          set stored := (w :: t).filterMap (fun i => (dget vals i).map (fun u => (i, u)))
            with hstored
          have hstored_keys : stored.map Prod.fst = w :: t := map_fst_filterMap_dget hsome
          obtain ⟨el', ro', rfl, hrest⟩ :=
            apply_properties_loop_vlist_frame rest oid _ ei _ obj' idx h2
              (fun q hq => hall q (by simp [hq]))
          have hjrest : (.i idx) ∉ rest.map Prod.fst := by
            rw [hk]
            exact hnd.1
          obtain ⟨hel, hro⟩ := hrest hjrest
          refine ⟨el', ro', stored, w, v, rfl, ?_, ?_, ?_, ?_, ?_, ?_⟩
          · rw [hro, get?_set_self _ _ _ hlen2]
          · rw [hstored_keys]; simp
          · rw [hstored_keys]; simp
          · intro x hx
            rw [hstored_keys] at hx
            exact hmax.2 x (hdesc_perm.mem_iff.mp hx)
          · exact dget_filterMap_dget hdesc_nodup (by simp) hw
          · rw [hel, get?_set_self _ _ _ hlen1]
      · have hkne : PyKey.i idx ≠ k0 := by
          intro he
          subst he
          exact hnd.1 (List.mem_map_of_mem Prod.fst hmem')
        have hne0 : pp0 ≠ [] := hall (k0, pp0) (by simp)
        obtain ⟨el1, ro1, rfl, _, _⟩ := apply_property_vlist_frame h1 hne0 (Ne.symm hkne)
        exact ih oid el1 ei ro1 obj' idx pp h2 hnd.2 (fun q hq => hall q (by simp [hq]))
          hmem' hpnodup

/-- C2: after patch application, every map slot and every list position with
a non-empty conflict set exposes the value of the Lamport-maximum op id of
that conflict set: the new `recent_ops` entry at the slot holds the conflict
set, some `w` in it is Lamport-greatest (`lamLe x w` compares the parsed
`counter@actor` ids by counter first, then lexicographically by actor id —
see `lamLe_iff`), and the value assigned to the slot is exactly the
conflict-set value of `w`.  The op ids are assumed well-formed
(`parse_op_id` succeeds) and pairwise distinct once parsed, as the claim's
`counter@actor` form requires; patch keys are distinct as Python dict keys
are; for list positions the patch is assumed to carry no deletions, so that
positions are stable. -/
theorem c2_conflict_winner :
    (∀ (oid : String) (es : List (PyKey × AMVal))
      (ro : List (PyKey × List (String × AMVal)))
      (props : List (PyKey × List (String × Patch))) (obj' : AMVal) (key : PyKey)
      (pp : List (String × Patch)),
      apply_properties (.vmap oid es ro) props = .ok obj' →
      (props.map Prod.fst).Nodup →
      (key, pp) ∈ props →
      pp ≠ [] →
      (∀ i ∈ pp.map Prod.fst, (parse_op_id i).isSome) →
      ((pp.map Prod.fst).map lamKey).Nodup →
      ∃ es' ro' cs w v,
        obj' = .vmap oid es' ro' ∧
        dget ro' key = some cs ∧
        cs.map Prod.fst ≠ [] ∧
        w ∈ cs.map Prod.fst ∧
        (∀ x ∈ cs.map Prod.fst, lamLe x w) ∧
        dget cs w = some v ∧
        dget es' key = some v) ∧
    (∀ (oid : String) (el : List AMVal) (ei : List String)
      (ro : List (Option (List (String × AMVal))))
      (props : List (PyKey × List (String × Patch))) (obj' : AMVal) (idx : Nat)
      (pp : List (String × Patch)),
      apply_properties (.vlist oid el ei ro) props = .ok obj' →
      (props.map Prod.fst).Nodup →
      (∀ q ∈ props, q.2 ≠ []) →
      (.i idx, pp) ∈ props →
      (∀ i ∈ pp.map Prod.fst, (parse_op_id i).isSome) →
      ((pp.map Prod.fst).map lamKey).Nodup →
      ∃ el' ro' cs w v,
        obj' = .vlist oid el' ei ro' ∧
        ro'.get? idx = some (some cs) ∧
        cs.map Prod.fst ≠ [] ∧
        w ∈ cs.map Prod.fst ∧
        (∀ x ∈ cs.map Prod.fst, lamLe x w) ∧
        dget cs w = some v ∧
        el'.get? idx = some v) := by
  constructor
  · intro oid es ro props obj' key pp h hnd hmem hne _ hpnodup
    have h' : apply_properties_loop (.vmap oid es ro) props = .ok obj' := by
      simpa [apply_properties, isComposite] using h
    exact c2_core_map props oid es ro obj' key pp h' hnd hmem hne hpnodup
  · intro oid el ei ro props obj' idx pp h hnd hall hmem _ hpnodup
    have h' : apply_properties_loop (.vlist oid el ei ro) props = .ok obj' := by
      simpa [apply_properties, isComposite] using h
    exact c2_core_list props oid el ei ro obj' idx pp h' hnd hall hmem hpnodup

/-- Witness for C2 at concrete conflict sets: two writers set `"bird"` under
op ids `1@a` and `1@b` (equal counters, actor `b` lexicographically greater),
and a list position receives `2@a`/`2@b`; in both cases the exposed value is
the one recorded under the Lamport-greater op id. -/
theorem c2_conflict_winner_witness :
    (apply_properties (.vmap "_root" [] [])
        [(.s "bird", [("1@a", .prim (.vstr "magpie")), ("1@b", .prim (.vstr "blackbird"))])] =
      .ok (.vmap "_root" [(.s "bird", .vstr "blackbird")]
        [(.s "bird", [("1@b", .vstr "blackbird"), ("1@a", .vstr "magpie")])])) ∧
    (∃ es' ro' cs w v,
      (AMVal.vmap "_root" [(.s "bird", .vstr "blackbird")]
        [(.s "bird", [("1@b", .vstr "blackbird"), ("1@a", .vstr "magpie")])]) =
        .vmap "_root" es' ro' ∧
      dget ro' (.s "bird") = some cs ∧
      cs.map Prod.fst ≠ [] ∧
      w ∈ cs.map Prod.fst ∧
      (∀ x ∈ cs.map Prod.fst, lamLe x w) ∧
      dget cs w = some v ∧
      dget es' (.s "bird") = some v) ∧
    (apply_properties (.vlist "1@a" [.vnone] ["9@z"] [none])
        [(.i 0, [("2@a", .prim (.vstr "x")), ("2@b", .prim (.vstr "y"))])] =
      .ok (.vlist "1@a" [.vstr "y"] ["9@z"]
        [some [("2@b", .vstr "y"), ("2@a", .vstr "x")]])) ∧
    (∃ el' ro' cs w v,
      (AMVal.vlist "1@a" [.vstr "y"] ["9@z"]
        [some [("2@b", .vstr "y"), ("2@a", .vstr "x")]]) = .vlist "1@a" el' ["9@z"] ro' ∧
      ro'.get? 0 = some (some cs) ∧
      cs.map Prod.fst ≠ [] ∧
      w ∈ cs.map Prod.fst ∧
      (∀ x ∈ cs.map Prod.fst, lamLe x w) ∧
      dget cs w = some v ∧
      el'.get? 0 = some v) := by
  have h1 : apply_properties (.vmap "_root" [] [])
      [(.s "bird", [("1@a", .prim (.vstr "magpie")), ("1@b", .prim (.vstr "blackbird"))])] =
      .ok (.vmap "_root" [(.s "bird", .vstr "blackbird")]
        [(.s "bird", [("1@b", .vstr "blackbird"), ("1@a", .vstr "magpie")])]) := by
    simp [apply_properties, isComposite, apply_properties_loop, apply_property,
      checkOpIdsParse, parse_op_id, pySortDesc, List.insertionSort, List.orderedInsert,
      lamLe, lamKey, opIdCompare, compute_values, compute_value1, compute_conflict,
      get_value, dget, dset, digitsToNat]
    rfl
  have h2 : apply_properties (.vlist "1@a" [.vnone] ["9@z"] [none])
      [(.i 0, [("2@a", .prim (.vstr "x")), ("2@b", .prim (.vstr "y"))])] =
      .ok (.vlist "1@a" [.vstr "y"] ["9@z"]
        [some [("2@b", .vstr "y"), ("2@a", .vstr "x")]]) := by
    simp [apply_properties, isComposite, apply_properties_loop, apply_property,
      checkOpIdsParse, parse_op_id, pySortDesc, List.insertionSort, List.orderedInsert,
      lamLe, lamKey, opIdCompare, compute_values, compute_value1, compute_conflict,
      get_value, dget, dset, digitsToNat]
    rfl
  refine ⟨h1, ?_, h2, ?_⟩
  · exact c2_conflict_winner.1 "_root" [] []
      [(.s "bird", [("1@a", .prim (.vstr "magpie")), ("1@b", .prim (.vstr "blackbird"))])]
      _ (.s "bird") [("1@a", .prim (.vstr "magpie")), ("1@b", .prim (.vstr "blackbird"))]
      h1 (by decide) (by simp) (by simp) (by decide) (by decide)
  · exact c2_conflict_winner.2 "1@a" [.vnone] ["9@z"] [none]
      [(.i 0, [("2@a", .prim (.vstr "x")), ("2@b", .prim (.vstr "y"))])]
      _ 0 [("2@a", .prim (.vstr "x")), ("2@b", .prim (.vstr "y"))]
      h2 (by decide) (by simp) (by simp) (by decide) (by decide)

theorem ok_bind {α β : Type} (a : α) (f : α → Except Err β) :
    (Except.ok a : Except Err α) >>= f = f a := rfl

theorem insertIdx_length {α : Type} :
    ∀ (l : List α) (i : Nat) (a : α), i ≤ l.length →
      (l.insertIdx i a).length = l.length + 1 := by
  intro l
  induction l with
  | nil =>
      intro i a h
      have h0 : i = 0 := Nat.le_zero.mp (by simpa using h)
      subst h0
      simp [List.insertIdx]
  | cons hd t ih =>
      intro i a h
      cases i with
      | zero => simp [List.insertIdx]
      | succ i' =>
          simp only [List.insertIdx, List.length_cons]
          have := ih i' a (by simpa using h)
          simpa [List.insertIdx] using this

theorem insertIdx_set_self {α : Type} :
    ∀ (l : List α) (i : Nat) (x y : α), i ≤ l.length →
      (l.insertIdx i x).set i y = l.insertIdx i y := by
  intro l
  induction l with
  | nil =>
      intro i x y h
      have h0 : i = 0 := Nat.le_zero.mp (by simpa using h)
      subst h0
      simp [List.insertIdx, List.set]
  | cons hd t ih =>
      intro i x y h
      cases i with
      | zero => simp [List.insertIdx, List.set]
      | succ i' =>
          simp only [List.insertIdx, List.set]
          have := ih i' x y (by simpa using h)
          simpa [List.insertIdx] using this

theorem get_value_own_description (v : AMVal) :
    get_value v (get_value_description v) = .ok v := by
  cases v with
  | vnone => simp [get_value_description, get_value]; rfl
  | vint n => simp [get_value_description, get_value]; rfl
  | vbool b => simp [get_value_description, get_value]; rfl
  | vstr s => simp [get_value_description, get_value]; rfl
  | vcounter n => simp [get_value_description, get_value]; rfl
  | vmap oid es ro =>
      simp only [get_value_description, get_value]
      by_cases ht : truthy (.vmap oid es ro) <;>
        simp [ht, apply_patch, isNone] <;> rfl
  | vlist oid el ei ro =>
      simp only [get_value_description, get_value]
      by_cases ht : truthy (.vlist oid el ei ro) <;>
        simp [ht, apply_patch, isNone] <;> rfl

theorem set_value_prim {ctx : Context} {parent : String} {key : PyKey} {val : PyVal}
    {params : OpParams} (h : isPrimPy val = true) :
    set_value ctx parent key val params =
      .ok (.prim (toAMPrim val),
        toString (ctx.maxOp + ctx.ops.length + 1) ++ "@" ++ ctx.actorId,
        ⟨ctx.ops ++ [if params.elemId.isSome then
            (mkOp "set" parent (some key) (some (toAMPrim val)) params).dropKey
          else mkOp "set" parent (some key) (some (toAMPrim val)) params],
          ctx.maxOp, ctx.actorId, ctx.rootObj, ctx.updated⟩) := by
  cases val with
  | pdict o e => simp [isPrimPy] at h
  | plist o e => simp [isPrimPy] at h
  | pnone => simp [set_value, add_op, List.length_append]; rfl
  | pint n => simp [set_value, add_op, List.length_append]; rfl
  | pbool b => simp [set_value, add_op, List.length_append]; rfl
  | pstr s => simp [set_value, add_op, List.length_append]; rfl
  | pcounter n => simp [set_value, add_op, List.length_append]; rfl

/-- C5: with a transaction already open (`root_proxy` set — and a stored root
proxy is always truthy, wrapping the 5-character string `"_root"`), opening a
second transaction on the same document fails with the nested-transaction
error raised by `Doc.__start_change_block`, before any field of the document
or of the open transaction's context is touched — the function returns
nothing but the error, so the open transaction's state is unaffected. -/
theorem c5_nested_transaction_fails (chg : Option Change) (prx : DocMapProxy)
    (actor oid : String) (cache : List (String × CacheEntry))
    (seq maxOp req : Nat) (deps : List String) :
    start_change_block ⟨chg, some prx, actor, oid, cache, seq, maxOp, req, deps⟩ =
      .error (.exception "Cannot change doc while already in change") := rfl

/-- C7 counterexample: assigning the primitive `42` under the empty map key
does not fail — the empty-key check of `set_value` sits inside the
`isinstance(val, dict)` branch — and a `set` op is recorded. -/
theorem c7_counterexample_primitive_empty_key :
    set_value ⟨[], 0, "a", .vmap "_root" [] [], []⟩ "_root" (.s "") (.pint 42) noParams =
      .ok (.prim (.vint 42), "1@a",
        ⟨[⟨"set", "_root", some (.s ""), none, false, [], some (.vint 42)⟩], 0, "a",
          .vmap "_root" [] [], []⟩) := by
  simp [set_value, add_op, mkOp, toAMPrim]
  rfl

/-- C7 (amended): only when the assigned value is a dict does setting a map
entry under the empty string key fail, with `ValueError`, and the failure is
raised before `add_op` records anything or any patch is applied. -/
theorem c7_empty_key_dict_fails (ctx : Context) (parent : String)
    (objId : Option String) (entries : List (String × PyVal)) (params : OpParams) :
    set_value ctx parent (.s "") (.pdict objId entries) params =
      .error (.valueError "The key of a map entry must not be an empty string") := by
  simp [set_value]
  rfl

/-- C10: assigning any value to a map key whose current value is a `Counter`
is a silent no-op — `MapProxy.__setitem__` returns before recording an op or
touching the tree, so the context (its ops and its root object) is returned
unchanged. -/
theorem c10_counter_setitem_noop (ctx : Context) (oid : String)
    (entries : List (PyKey × AMVal)) (ro : List (PyKey × List (String × AMVal)))
    (path : List (PyKey × String)) (k : String) (n : Int) (val : PyVal)
    (h : dget entries (.s k) = some (.vcounter n)) :
    map_proxy_setitem ctx (.vmap oid entries ro) path (.s k) val = .ok ctx := by
  simp [map_proxy_setitem, dhas, h, isCounterSlot]
  rfl

/-- Witness for C10 at a concrete state: the key `"c"` holds `Counter(0)`
and the assignment of `5` returns the context unchanged. -/
theorem c10_counter_setitem_noop_witness :
    dget [(PyKey.s "c", AMVal.vcounter 0)] (.s "c") = some (.vcounter 0) ∧
    map_proxy_setitem ⟨[], 0, "a", .vmap "_root" [] [], []⟩
        (.vmap "m" [(.s "c", .vcounter 0)] []) [] (.s "c") (.pint 5) =
      .ok ⟨[], 0, "a", .vmap "_root" [] [], []⟩ :=
  ⟨by rfl, c10_counter_setitem_noop _ _ _ _ _ _ _ _ (by rfl)⟩

/-- C6: `get_value` replaces a composite whose `object_id` differs from the
patch's with `Map([], patch["objectId"])` regardless of the patch's declared
type.  For a list-typed patch the fresh object is still a `Map`, and the
subsequent `update_list_obj` fails on the missing `elem_ids`
(`AttributeError`); for a map-typed patch the replacement is a fresh empty
`Map` under the new id, the prior contents discarded. -/
theorem c6_replacement_ignores_patch_type :
    get_value (.vlist "1@a" [.vstr "x"] ["1@a"] [some [("1@a", .vstr "x")]])
        (.node "2@a" "list" (some []) (some [])) = .error .attributeError ∧
    get_value (.vmap "1@a" [(.s "k", .vstr "x")] [(.s "k", [("1@a", .vstr "x")])])
        (.node "2@a" "map" (some []) none) = .ok (.vmap "2@a" [] []) := by
  constructor
  · simp [get_value, truthy, apply_patch, apply_patch_list, isNone, update_list_obj]
    rfl
  · simp [get_value, truthy, apply_patch, apply_patch_map, isNone, apply_properties,
      isComposite, apply_properties_loop]
    rfl

/-- C3: the discard-and-rollback the claim promises never happens, because
the transaction pipeline of `doc.py` cannot run at all.  Constructing
`Doc("a")` already fails: `__init__` ends in `__finish_change_block`, which
reads `self.root_proxy.context` while the proxy stores the attribute as
`ctx`, an `AttributeError`; consequently the raise-inside-`with` run fails
with that `AttributeError` instead of discarding ops and rolling back.  And
`Doc.__exit__` calls `__finish_change_block` before it ever inspects the
traceback, so on any document with an open change block the exit raises the
same `AttributeError` whether or not the body raised — the source contains
no discard path. -/
theorem c3_rollback_unreachable :
    doc_new "a" = .error .attributeError ∧
    doc_exception_run = .error .attributeError ∧
    (∀ (chg : Option Change) (prx : DocMapProxy) (actor oid : String)
      (cache : List (String × CacheEntry)) (seq maxOp req : Nat)
      (deps : List String) (b : Bool),
      doc_exit ⟨chg, some prx, actor, oid, cache, seq, maxOp, req, deps⟩ b =
        .error .attributeError) :=
  ⟨rfl, rfl, fun _ _ _ _ _ _ _ _ _ _ => rfl⟩

/-- C4: no transaction ever allocates the op ids the claim requires.
`Doc("a")` cannot be constructed (`AttributeError` reading
`self.root_proxy.context` in `__finish_change_block`), so the
two-transaction run fails outright; and on the context `doc.py` builds —
`Context(self.actor_id, 0, self.cache)` against the declared
`Context(max_op, actor_id, root_obj)` — every `add_op` computes
`self.max_op + len(self.ops)` as string plus int, a `TypeError`, so no op is
ever given an id `(max_op + 1 + i)@actor`. -/
theorem c4_op_ids_never_allocated :
    doc_two_txn_run = .error .attributeError ∧
    (∀ (c : DocContext) (op : Op), doc_add_op c op = .error .typeError) :=
  ⟨rfl, fun _ _ => rfl⟩

/-- C8: a storage key whose first segment has at least three characters is
splayed into the two-character directory and the remainder, and converting
the path back yields the original key; a first segment shorter than three
characters (or an empty key) fails with `ValueError`. -/
theorem c8_splay_roundtrip :
    (∀ (c1 c2 c3 : Char) (cs : List Char) (rest : List String),
      key_to_path (String.mk (c1 :: c2 :: c3 :: cs) :: rest) =
        .ok (String.mk [c1, c2] :: String.mk (c3 :: cs) :: rest) ∧
      path_to_key (String.mk [c1, c2] :: String.mk (c3 :: cs) :: rest) =
        .ok (String.mk (c1 :: c2 :: c3 :: cs) :: rest)) ∧
    (∀ (a b : Char) (rest : List String),
      key_to_path [] = .error "Storage key must have at least one part" ∧
      key_to_path (String.mk [] :: rest) =
        .error "First key component must have at least 3 characters" ∧
      key_to_path (String.mk [a] :: rest) =
        .error "First key component must have at least 3 characters" ∧
      key_to_path (String.mk [a, b] :: rest) =
        .error "First key component must have at least 3 characters") := by
  constructor
  · intro c1 c2 c3 cs rest
    constructor
    · simp [key_to_path, py_take, py_drop, String.length]
    · simp [path_to_key]
      rfl
  · intro a b rest
    refine ⟨by rfl, ?_, ?_, ?_⟩ <;> simp [key_to_path, String.length]

theorem get_value_vlist_self (oid : String) (el : List AMVal) (ei : List String)
    (ro : List (Option (List (String × AMVal)))) (ty : String)
    (ps : Option (List (PyKey × List (String × Patch)))) (es : Option (List Edit)) :
    get_value (.vlist oid el ei ro) (.node oid ty ps es) =
      apply_patch (.vlist oid el ei ro) (.node oid ty ps es) := by
  by_cases ht : truthy (.vlist oid el ei ro) <;> simp [get_value, ht]

theorem apply_property_single_ins {oid : String} {elems : List AMVal}
    {elemIds : List String} {ro : List (Option (List (String × AMVal)))}
    {idxN : Nat} {opId : String} {v : AMVal}
    (h1 : idxN < elems.length) (h3 : idxN < ro.length) :
    apply_property (.vlist oid elems elemIds ro) (.i idxN) [(opId, .prim v)] =
      .ok (.vlist oid (elems.set idxN v) elemIds (ro.set idxN (some [(opId, v)]))) := by
  simp [apply_property.eq_def, checkOpIdsParse, pySortDesc, List.insertionSort,
    List.orderedInsert, compute_values, compute_value1, compute_conflict, get_value,
    dget, List.filterMap, h1, h3]
  rfl

theorem gv_list_insert {oid : String} {elems : List AMVal} {elemIds : List String}
    {recentOps : List (Option (List (String × AMVal)))} {idxN : Nat} {opId : String}
    {v : AMVal} (h1 : idxN ≤ elems.length) (h2 : elemIds.length = elems.length)
    (h3 : recentOps.length = elems.length) :
    get_value (.vlist oid elems elemIds recentOps)
      (.node oid "list" (some [(.i idxN, [(opId, .prim v)])])
        (some [.insert idxN opId])) =
      .ok (.vlist oid (elems.insertIdx idxN v) (elemIds.insertIdx idxN opId)
        ((recentOps.insertIdx idxN none).set idxN (some [(opId, v)]))) := by
  rw [get_value_vlist_self]
  have e1 : min idxN elems.length = idxN := by omega
  have e2 : min idxN elemIds.length = idxN := by omega
  have e3 : min idxN recentOps.length = idxN := by omega
  have l1 : (elems.insertIdx idxN AMVal.vnone).length = elems.length + 1 :=
    insertIdx_length _ _ _ h1
  have l3 : ((recentOps.insertIdx idxN (none : Option (List (String × AMVal)))).length)
      = elems.length + 1 := by
    rw [insertIdx_length _ _ _ (by omega)]; omega
  simp only [apply_patch, apply_patch_list, update_list_obj, apply_edits, pyInsert,
    e1, e2, e3, isNone, Option.isNone_some, Bool.and_false, Bool.false_and,
    Bool.not_false, Bool.and_self]
  simp only [reduceIte, pure_bind]
  have hne : ¬ (("list" : String) = "map") := by decide
  rw [if_neg hne]
  rw [if_neg (by decide : ¬ (false = true))]
  unfold apply_properties
  rw [if_pos (by rfl : isComposite (AMVal.vlist oid
    (List.insertIdx idxN AMVal.vnone elems) (List.insertIdx idxN opId elemIds)
    (List.insertIdx idxN none recentOps)) = true)]
  unfold apply_properties_loop
  rw [apply_property_single_ins (by omega) (by omega), ok_bind]
  unfold apply_properties_loop
  rw [insertIdx_set_self _ _ _ _ h1]
  rfl

theorem compute_value1_conflict {o : String} {rE : List (PyKey × AMVal)}
    {rR : List (PyKey × List (String × AMVal))} {k : PyKey}
    {cs0 : List (String × AMVal)} (hR : dget rR k = some cs0)
    {i : String} {c : AMVal} (hc : dget cs0 i = some c) (sub : Patch) :
    compute_value1 (.vmap o rE rR) k i sub = get_value c sub := by
  have hcc : compute_conflict (.vmap o rE rR) k i = some c := by
    simp [compute_conflict, hR, hc]
  unfold compute_value1
  rw [hcc]

theorem cv_descrs {o : String} {rE : List (PyKey × AMVal)}
    {rR : List (PyKey × List (String × AMVal))} {k : PyKey}
    {cs0 : List (String × AMVal)} (hR : dget rR k = some cs0) :
    ∀ (cs : List (String × AMVal)), (∀ p ∈ cs, dget cs0 p.1 = some p.2) →
      compute_values (.vmap o rE rR) k
        (cs.map (fun p => (p.1, get_value_description p.2))) = .ok cs := by
  intro cs
  induction cs with
  | nil =>
      intro _
      simp only [List.map_nil]
      unfold compute_values
      rfl
  | cons p rest ih =>
      intro hmem
      obtain ⟨i, w⟩ := p
      simp only [List.map_cons]
      unfold compute_values
      rw [compute_value1_conflict hR (hmem (i, w) (by simp)),
        get_value_own_description, ok_bind, ih (fun q hq => hmem q (by simp [hq])),
        ok_bind]
      rfl

theorem cv_dset_descrs {o : String} {rE : List (PyKey × AMVal)}
    {rR : List (PyKey × List (String × AMVal))} {k : PyKey}
    {cs0 : List (String × AMVal)} (hR : dget rR k = some cs0)
    {listId : String} {L newVal : AMVal} {sub : Patch}
    (hL : dget cs0 listId = some L) (hgv : get_value L sub = .ok newVal) :
    ∀ (cs : List (String × AMVal)), (∀ p ∈ cs, dget cs0 p.1 = some p.2) →
      compute_values (.vmap o rE rR) k
        (dset (cs.map (fun p => (p.1, get_value_description p.2))) listId sub) =
      .ok (dset cs listId newVal) := by
  intro cs
  induction cs with
  | nil =>
      intro _
      simp only [List.map_nil, dset]
      have h0 : compute_values (.vmap o rE rR) k ([] : List (String × Patch)) = .ok [] := by
        unfold compute_values
        rfl
      unfold compute_values
      rw [compute_value1_conflict hR hL, hgv, ok_bind, h0, ok_bind]
      rfl
  | cons p rest ih =>
      intro hmem
      obtain ⟨i, w⟩ := p
      by_cases hp : listId = i
      · subst hp
        simp only [List.map_cons, dset, eq_self_iff_true, if_true]
        unfold compute_values
        rw [compute_value1_conflict hR hL, hgv, ok_bind,
          cv_descrs hR rest (fun q hq => hmem q (by simp [hq])), ok_bind]
        rfl
      · simp only [List.map_cons, dset, if_neg hp]
        unfold compute_values
        rw [compute_value1_conflict hR (hmem (i, w) (by simp)),
          get_value_own_description, ok_bind,
          ih (fun q hq => hmem q (by simp [hq])), ok_bind]
        rfl

theorem apply_property_root_ins {o : String} {rE : List (PyKey × AMVal)}
    {rR : List (PyKey × List (String × AMVal))} {k : PyKey}
    {cs0 : List (String × AMVal)} (hR : dget rR k = some cs0)
    (hnd : (cs0.map Prod.fst).Nodup)
    (hparse : ∀ i ∈ cs0.map Prod.fst, (parse_op_id i).isSome)
    {listId : String} {L newVal : AMVal} {sub : Patch}
    (hL : dget cs0 listId = some L) (hgv : get_value L sub = .ok newVal) :
    ∃ wv stored,
      apply_property (.vmap o rE rR) k
        (dset (cs0.map (fun p => (p.1, get_value_description p.2))) listId sub) =
        .ok (.vmap o (dset rE k wv) (dset rR k stored)) ∧
      dget stored listId = some newVal := by
  have hmemk : listId ∈ cs0.map Prod.fst :=
    mem_keys_of_dget_isSome (by rw [hL]; rfl)
  have hkeysd : (cs0.map (fun p => (p.1, get_value_description p.2))).map Prod.fst
      = cs0.map Prod.fst := by
    simp
  have hmemd : listId ∈ (cs0.map (fun p => (p.1, get_value_description p.2))).map Prod.fst := by
    rw [hkeysd]; exact hmemk
  have hids : (dset (cs0.map (fun p => (p.1, get_value_description p.2))) listId sub).map Prod.fst
      = cs0.map Prod.fst := by
    rw [dset_map_fst_of_mem hmemd sub, hkeysd]
  have hcv : compute_values (.vmap o rE rR) k
      (dset (cs0.map (fun p => (p.1, get_value_description p.2))) listId sub)
      = .ok (dset cs0 listId newVal) :=
    cv_dset_descrs hR hL hgv cs0
      (fun p hp => dget_eq_of_nodup hnd (show (p.1, p.2) ∈ cs0 by simpa using hp))
  have hvalskeys : (dset cs0 listId newVal).map Prod.fst = cs0.map Prod.fst :=
    dset_map_fst_of_mem hmemk newVal
  cases hdesc : pySortDesc (cs0.map Prod.fst) with
  | nil =>
      exfalso
      have hmem' : listId ∈ pySortDesc (cs0.map Prod.fst) :=
        (pySortDesc_perm _).mem_iff.mpr hmemk
      rw [hdesc] at hmem'
      simp at hmem'
  | cons w t =>
      have hw : w ∈ cs0.map Prod.fst := (pySortDesc_head_max hdesc).1
      have hwv : (dget (dset cs0 listId newVal) w).isSome :=
        dget_isSome_of_mem_keys (by rw [hvalskeys]; exact hw)
      obtain ⟨wv, hwveq⟩ := Option.isSome_iff_exists.mp hwv
      refine ⟨wv, (w :: t).filterMap
        (fun i => (dget (dset cs0 listId newVal) i).map (fun x => (i, x))), ?_, ?_⟩
      · simp only [apply_property, hids, checkOpIdsParse_ok hparse, ok_bind, hcv,
          hdesc, hwveq]
        rfl
      · have hnddesc : (w :: t).Nodup := by
          have hp := (pySortDesc_perm (cs0.map Prod.fst)).nodup_iff.mpr hnd
          rwa [hdesc] at hp
        have hmemdesc : listId ∈ (w :: t) := by
          have hp := (pySortDesc_perm (cs0.map Prod.fst)).mem_iff.mpr hmemk
          rwa [hdesc] at hp
        exact dget_filterMap_dget hnddesc hmemdesc (dget_dset_self _ _ _)

theorem apply_patch_root_single {o x : String} {rE : List (PyKey × AMVal)}
    {rR : List (PyKey × List (String × AMVal))} {k : PyKey}
    {pp : List (String × Patch)} {res : AMVal}
    (h : apply_property (.vmap o rE rR) k pp = .ok res) :
    apply_patch (.vmap o rE rR) (.node x "map" (some [(k, pp)]) none) = .ok res := by
  unfold apply_patch
  rw [if_neg (by simp [isNone])]
  rw [if_pos rfl]
  unfold apply_patch_map
  unfold apply_properties
  rw [if_pos (by rfl)]
  unfold apply_properties_loop
  rw [h, ok_bind]
  unfold apply_properties_loop
  rfl

/-- C9: inside a transaction, `ListProxy.insert` clamps the requested integer
index into `[0, len]` — the insertion position is `min (max idx 0) len` — so
an arbitrary integer index never raises an out-of-range error: on a list of
length `n` reached from the root under key `k`, the insertion succeeds for
every `idx : Int` (an index above `n` appends at the end, a negative index
inserts at position 0), records exactly one new op, and the updated list in
the context's tree carries the new value at the clamped position. -/
theorem c9_insert_clamps (ctx : Context) (k listId : String)
    (elems : List AMVal) (elemIds : List String)
    (recentOps : List (Option (List (String × AMVal))))
    (rE : List (PyKey × AMVal)) (rR : List (PyKey × List (String × AMVal)))
    (cs0 : List (String × AMVal)) (idx : Int) (val : PyVal)
    (hroot : ctx.rootObj = .vmap "_root" rE rR)
    (hR : dget rR (.s k) = some cs0)
    (hnd : (cs0.map Prod.fst).Nodup)
    (hparse : ∀ i ∈ cs0.map Prod.fst, (parse_op_id i).isSome)
    (hL : dget cs0 listId = some (.vlist listId elems elemIds recentOps))
    (hlen2 : elemIds.length = elems.length)
    (hlen3 : recentOps.length = elems.length)
    (hro : ∀ r ∈ recentOps, r.isSome)
    (hval : isPrimPy val = true) :
    ∃ ctx' newOp wv stored elemIds',
      list_proxy_insert ctx (.vlist listId elems elemIds recentOps)
          [(.s k, listId)] idx val = .ok ctx' ∧
      ctx'.ops = ctx.ops ++ [newOp] ∧
      ctx'.rootObj = .vmap "_root" (dset rE (.s k) wv) (dset rR (.s k) stored) ∧
      dget stored listId = some (.vlist listId
        (elems.insertIdx ((min (max idx 0) ((elems.length : Int))).toNat) (toAMPrim val))
        elemIds'
        ((recentOps.insertIdx ((min (max idx 0) ((elems.length : Int))).toNat)
            none).set ((min (max idx 0) ((elems.length : Int))).toNat)
          (some [(toString (ctx.maxOp + ctx.ops.length + 1) ++ "@" ++ ctx.actorId,
            toAMPrim val)]))) := by
  set cN := (min (max idx 0) ((elems.length : Int))).toNat with hcN
  have hcle : cN ≤ elems.length := by omega
  have hidxN : (if idx > ((elems.length : Int)) then ((elems.length : Int))
      else if idx < 0 then 0 else idx).toNat = cN := by
    rw [hcN]
    split_ifs <;> omega
  have hpred : ∃ preds, list_get_pred recentOps cN = .ok preds := by
    unfold list_get_pred
    by_cases hlt : cN < recentOps.length
    · cases hg : recentOps.get? cN with
      | none =>
          exact absurd (List.get?_eq_none.mp hg) (by omega)
      | some r =>
          have hrs : r.isSome := hro r (List.get?_mem hg)
          cases r with
          | none => simp at hrs
          | some cs =>
              refine ⟨cs.map Prod.fst, ?_⟩
              rw [if_pos hlt]
              rfl
    · rw [if_neg hlt]
      exact ⟨[], rfl⟩
  obtain ⟨preds, hpreds⟩ := hpred
  have hgvd : get_values_descriptions (.vmap "_root" rE rR) (.s k)
      = .ok (cs0.map (fun p => (p.1, get_value_description p.2))) := by
    simp [get_values_descriptions, hR]
    rfl
  have hdg : dget (cs0.map (fun p => (p.1, get_value_description p.2))) listId
      = some (.node listId "list" none none) := by
    rw [dget_map_snd, hL]
    rfl
  have hrc : recent_conflict (.vmap "_root" rE rR) (.s k) listId
      = some (.vlist listId elems elemIds recentOps) := by
    simp [recent_conflict, hR, hL]
  have hgv := @gv_list_insert listId elems elemIds recentOps cN
    (toString (ctx.maxOp + ctx.ops.length + 1) ++ "@" ++ ctx.actorId)
    (toAMPrim val) hcle hlen2 hlen3
  obtain ⟨wv, stored, haps, hdgs⟩ :=
    @apply_property_root_ins "_root" rE rR (.s k) cs0 hR hnd hparse listId
      (.vlist listId elems elemIds recentOps) _ _ hL hgv
  by_cases h0 : cN = 0
  · refine ⟨⟨ctx.ops ++ [(mkOp "set" listId (some (.i cN)) (some (toAMPrim val))
        ⟨preds, true, some "_head"⟩).dropKey], ctx.maxOp, ctx.actorId,
        .vmap "_root" (dset rE (.s k) wv) (dset rR (.s k) stored),
        ctx.updated ++ ["_root"]⟩,
      (mkOp "set" listId (some (.i cN)) (some (toAMPrim val))
        ⟨preds, true, some "_head"⟩).dropKey,
      wv, stored, elemIds.insertIdx cN
        (toString (ctx.maxOp + ctx.ops.length + 1) ++ "@" ++ ctx.actorId),
      ?_, rfl, rfl, hdgs⟩
    simp only [list_proxy_insert, hidxN, if_pos h0, hpreds, ok_bind, pure_bind,
      apply_at_path, get_subpatch, hroot, hgvd, hdg, hrc, set_value_prim hval,
      set_prop_in_subpatch, dset, Option.isSome_some, eq_self_iff_true, if_true,
      apply_patch_root_single haps]
    rfl
  · have hlt1 : cN - 1 < elemIds.length := by omega
    cases hg : elemIds.get? (cN - 1) with
    | none => exact absurd (List.get?_eq_none.mp hg) (by omega)
    | some e =>
        refine ⟨⟨ctx.ops ++ [(mkOp "set" listId (some (.i cN)) (some (toAMPrim val))
            ⟨preds, true, some e⟩).dropKey], ctx.maxOp, ctx.actorId,
            .vmap "_root" (dset rE (.s k) wv) (dset rR (.s k) stored),
            ctx.updated ++ ["_root"]⟩,
          (mkOp "set" listId (some (.i cN)) (some (toAMPrim val))
            ⟨preds, true, some e⟩).dropKey,
          wv, stored, elemIds.insertIdx cN
            (toString (ctx.maxOp + ctx.ops.length + 1) ++ "@" ++ ctx.actorId),
          ?_, rfl, rfl, hdgs⟩
        simp only [list_proxy_insert, hidxN, if_neg h0, hg, hpreds, ok_bind,
          pure_bind, apply_at_path, get_subpatch, hroot, hgvd, hdg, hrc,
          set_value_prim hval, set_prop_in_subpatch, dset, Option.isSome_some,
          eq_self_iff_true, if_true, apply_patch_root_single haps]
        rfl

/-- Witness for C9 at a concrete state: inserting `7` at index `5` into the
empty list under root key `"l"` clamps to position 0 and succeeds. -/
theorem c9_insert_clamps_witness :
    ∃ ctx' newOp wv stored elemIds',
      list_proxy_insert ⟨[], 0, "a",
          .vmap "_root" [(.s "l", .vlist "1@a" [] [] [])]
            [(.s "l", [("1@a", .vlist "1@a" [] [] [])])], []⟩
          (.vlist "1@a" [] [] []) [(.s "l", "1@a")] 5 (.pint 7) = .ok ctx' ∧
      ctx'.ops = [newOp] ∧
      ctx'.rootObj = .vmap "_root"
        (dset [(.s "l", .vlist "1@a" [] [] [])] (.s "l") wv)
        (dset [(.s "l", [("1@a", .vlist "1@a" [] [] [])])] (.s "l") stored) ∧
      dget stored "1@a" = some (.vlist "1@a" [.vint 7] elemIds'
        [some [("1@a", .vint 7)]]) :=
  c9_insert_clamps
    ⟨[], 0, "a", .vmap "_root" [(.s "l", .vlist "1@a" [] [] [])]
      [(.s "l", [("1@a", .vlist "1@a" [] [] [])])], []⟩
    "l" "1@a" [] [] []
    [(.s "l", .vlist "1@a" [] [] [])]
    [(.s "l", [("1@a", .vlist "1@a" [] [] [])])]
    [("1@a", .vlist "1@a" [] [] [])]
    5 (.pint 7)
    rfl rfl (by decide) (by decide) rfl rfl rfl (by simp) rfl

theorem eq_of_perm_sorted_keyed {α κ : Type} (key : α → κ) (r : α → α → Prop)
    (hanti : ∀ a b, r a b → r b a → key a = key b) :
    ∀ (l1 l2 : List α), l1.Perm l2 → l1.Sorted r → l2.Sorted r →
      (l1.map key).Nodup → l1 = l2 := by
  intro l1
  induction l1 with
  | nil =>
      intro l2 hp _ _ _
      exact (hp.symm.eq_nil).symm
  | cons a t1 ih =>
      intro l2 hp hs1 hs2 hnd
      cases l2 with
      | nil =>
          have hh := hp.eq_nil
          simp at hh
      | cons b t2 =>
          by_cases hab : a = b
          · subst hab
            have hp' : t1.Perm t2 := hp.cons_inv
            have h1 := List.sorted_cons.mp hs1
            have h2 := List.sorted_cons.mp hs2
            have hnd' : (t1.map key).Nodup := by
              simp only [List.map_cons, List.nodup_cons] at hnd
              exact hnd.2
            rw [ih t2 hp' h1.2 h2.2 hnd']
          · exfalso
            have ha2 : a ∈ b :: t2 := hp.mem_iff.mp (by simp)
            have hb1 : b ∈ a :: t1 := hp.mem_iff.mpr (by simp)
            have ha2' : a ∈ t2 := by
              rcases List.mem_cons.mp ha2 with h | h
              · exact absurd h hab
              · exact h
            have hb1' : b ∈ t1 := by
              rcases List.mem_cons.mp hb1 with h | h
              · exact absurd h.symm hab
              · exact h
            have hrab : r a b := (List.sorted_cons.mp hs1).1 b hb1'
            have hrba : r b a := (List.sorted_cons.mp hs2).1 a ha2'
            have hk : key a = key b := hanti a b hrab hrba
            simp only [List.map_cons, List.nodup_cons] at hnd
            exact hnd.1 (by rw [hk]; exact List.mem_map_of_mem key hb1')

theorem perm_flatMap {α β : Type} (f : α → List β) {l1 l2 : List α}
    (h : l1.Perm l2) : (l1.flatMap f).Perm (l2.flatMap f) := by
  induction h with
  | nil => exact List.Perm.refl _
  | cons x _ ih =>
      simp only [List.flatMap_cons]
      exact ih.append_left (f x)
  | swap x y l =>
      simp only [List.flatMap_cons]
      rw [← List.append_assoc, ← List.append_assoc]
      exact (List.perm_append_comm).append_right _
  | trans _ _ ih1 ih2 => exact ih1.trans ih2

theorem spec_lam_le_total (a b : SpecOpId) : spec_lam_le a b ∨ spec_lam_le b a := by
  unfold spec_lam_le
  rcases lt_trichotomy a.counter b.counter with h | h | h
  · exact Or.inl (Or.inl h)
  · rcases le_total a.actor b.actor with ha | ha
    · exact Or.inl (Or.inr ⟨h, ha⟩)
    · exact Or.inr (Or.inr ⟨h.symm, ha⟩)
  · exact Or.inr (Or.inl h)

theorem spec_lam_le_trans (a b c : SpecOpId) (h1 : spec_lam_le a b)
    (h2 : spec_lam_le b c) : spec_lam_le a c := by
  unfold spec_lam_le at h1 h2 ⊢
  rcases h1 with h1 | ⟨h1, h1'⟩ <;> rcases h2 with h2 | ⟨h2, h2'⟩
  · exact Or.inl (h1.trans h2)
  · exact Or.inl (h2 ▸ h1)
  · exact Or.inl (h1 ▸ h2)
  · exact Or.inr ⟨h1.trans h2, h1'.trans h2'⟩

theorem spec_op_le_key_antisymm (a b : SpecOpId × SpecOp)
    (h1 : spec_op_le a b) (h2 : spec_op_le b a) : a.1 = b.1 := by
  obtain ⟨⟨ca, aa⟩, oa⟩ := a
  obtain ⟨⟨cb, ab⟩, ob⟩ := b
  unfold spec_op_le spec_lam_le at h1 h2
  simp only at h1 h2 ⊢
  rcases h1 with h1 | ⟨h1, h1'⟩ <;> rcases h2 with h2 | ⟨h2, h2'⟩
  · omega
  · omega
  · omega
  · exact congrArg₂ SpecOpId.mk h1 (le_antisymm h1' h2')

theorem spec_apply_changes_go (l : List SpecChange) :
    ∀ acc : List SpecChange, ((acc ++ l).map spec_change_hash).Nodup →
      l.foldl spec_apply_change acc = acc ++ l := by
  induction l with
  | nil => intro acc _; simp
  | cons c rest ih =>
      intro acc h
      simp only [List.foldl_cons]
      have hnotin : spec_change_hash c ∉ acc.map spec_change_hash := by
        rw [List.map_append] at h
        have hd := (List.nodup_append.mp h).2.2
        intro hmem
        exact hd hmem (by simp)
      have hstep : spec_apply_change acc c = acc ++ [c] := by
        unfold spec_apply_change
        rw [if_neg (by simpa using hnotin)]
      rw [hstep, ih (acc ++ [c]) (by simpa [List.append_assoc] using h)]
      simp

/-- C1: determinism of the spec-modelled backend — for any set of changes
with distinct canonical encodings and distinct op ids, applying the set to
two fresh documents in any two topological orders yields the same
materialised object table, and the `save` bytes of the two documents are
identical. -/
theorem c1_determinism (cs l1 l2 : List SpecChange)
    (h1 : l1.Perm cs) (h2 : l2.Perm cs)
    (ht1 : spec_topo l1 = true) (ht2 : spec_topo l2 = true)
    (hhash : (cs.map spec_encode_change).Nodup)
    (hids : ((cs.flatMap spec_change_ops).map Prod.fst).Nodup) :
    spec_materialise (spec_apply_changes l1) = spec_materialise (spec_apply_changes l2) ∧
    spec_save (spec_apply_changes l1) = spec_save (spec_apply_changes l2) := by
  haveI : IsTotal (SpecOpId × SpecOp) spec_op_le :=
    ⟨fun a b => spec_lam_le_total a.1 b.1⟩
  haveI : IsTrans (SpecOpId × SpecOp) spec_op_le :=
    ⟨fun a b c => spec_lam_le_trans a.1 b.1 c.1⟩
  haveI : IsTotal SpecChange spec_change_le := ⟨fun a b => le_total _ _⟩
  haveI : IsTrans SpecChange spec_change_le := ⟨fun _ _ _ ha hb => le_trans ha hb⟩
  have hh1 : (l1.map spec_change_hash).Nodup :=
    ((h1.map spec_change_hash).nodup_iff).mpr hhash
  have hh2 : (l2.map spec_change_hash).Nodup :=
    ((h2.map spec_change_hash).nodup_iff).mpr hhash
  have e1 : spec_apply_changes l1 = l1 := by
    unfold spec_apply_changes
    exact spec_apply_changes_go l1 [] (by simpa using hh1)
  have e2 : spec_apply_changes l2 = l2 := by
    unfold spec_apply_changes
    exact spec_apply_changes_go l2 [] (by simpa using hh2)
  rw [e1, e2]
  constructor
  · unfold spec_materialise
    have hops : (l1.flatMap spec_change_ops).Perm (l2.flatMap spec_change_ops) :=
      perm_flatMap spec_change_ops (h1.trans h2.symm)
    have hnp : ((l1.flatMap spec_change_ops).map Prod.fst).Nodup :=
      (((perm_flatMap spec_change_ops h1).map Prod.fst).nodup_iff).mpr hids
    have hsorted_eq : List.insertionSort spec_op_le (l1.flatMap spec_change_ops)
        = List.insertionSort spec_op_le (l2.flatMap spec_change_ops) :=
      eq_of_perm_sorted_keyed Prod.fst spec_op_le spec_op_le_key_antisymm _ _
        ((List.perm_insertionSort _ _).trans
          (hops.trans (List.perm_insertionSort _ _).symm))
        (List.sorted_insertionSort _ _) (List.sorted_insertionSort _ _)
        (((List.perm_insertionSort spec_op_le _).map Prod.fst).nodup_iff.mpr hnp)
    rw [hsorted_eq]
  · unfold spec_save
    have hc : List.insertionSort spec_change_le l1
        = List.insertionSort spec_change_le l2 :=
      eq_of_perm_sorted_keyed spec_encode_change spec_change_le
        (fun _ _ hab hba => le_antisymm hab hba) _ _
        ((List.perm_insertionSort _ _).trans
          ((h1.trans h2.symm).trans (List.perm_insertionSort _ _).symm))
        (List.sorted_insertionSort _ _) (List.sorted_insertionSort _ _)
        (((List.perm_insertionSort spec_change_le l1).map spec_encode_change).nodup_iff.mpr
          (((h1.map spec_encode_change).nodup_iff).mpr hhash))
    rw [hc]

/-- Witness for C1: two dependency-free changes by actors `a` and `b`,
applied in both orders, materialise and save identically. -/
theorem c1_determinism_witness :
    spec_materialise (spec_apply_changes
        [⟨"a", 1, 1, [], [⟨"set", "_root", "x", false, [], .int 1, "", "", ""⟩]⟩,
         ⟨"b", 1, 1, [], [⟨"set", "_root", "y", false, [], .int 2, "", "", ""⟩]⟩]) =
      spec_materialise (spec_apply_changes
        [⟨"b", 1, 1, [], [⟨"set", "_root", "y", false, [], .int 2, "", "", ""⟩]⟩,
         ⟨"a", 1, 1, [], [⟨"set", "_root", "x", false, [], .int 1, "", "", ""⟩]⟩]) ∧
    spec_save (spec_apply_changes
        [⟨"a", 1, 1, [], [⟨"set", "_root", "x", false, [], .int 1, "", "", ""⟩]⟩,
         ⟨"b", 1, 1, [], [⟨"set", "_root", "y", false, [], .int 2, "", "", ""⟩]⟩]) =
      spec_save (spec_apply_changes
        [⟨"b", 1, 1, [], [⟨"set", "_root", "y", false, [], .int 2, "", "", ""⟩]⟩,
         ⟨"a", 1, 1, [], [⟨"set", "_root", "x", false, [], .int 1, "", "", ""⟩]⟩]) :=
  c1_determinism
    [⟨"a", 1, 1, [], [⟨"set", "_root", "x", false, [], .int 1, "", "", ""⟩]⟩,
     ⟨"b", 1, 1, [], [⟨"set", "_root", "y", false, [], .int 2, "", "", ""⟩]⟩]
    [⟨"a", 1, 1, [], [⟨"set", "_root", "x", false, [], .int 1, "", "", ""⟩]⟩,
     ⟨"b", 1, 1, [], [⟨"set", "_root", "y", false, [], .int 2, "", "", ""⟩]⟩]
    [⟨"b", 1, 1, [], [⟨"set", "_root", "y", false, [], .int 2, "", "", ""⟩]⟩,
     ⟨"a", 1, 1, [], [⟨"set", "_root", "x", false, [], .int 1, "", "", ""⟩]⟩]
    (by decide) (by decide) (by decide) (by decide) (by decide) (by decide)

end AMPy
